import Mathlib

/-!
# htmlformat: a verification development

A shallow embedding of `format.go` (package `htmlformat`) and proofs about its
tree-to-text rendering rules.

Conventions of the embedding:

* Go strings are modelled by Lean `String`s, i.e. as sequences of Unicode scalar values; a
  string is assumed to hold valid UTF-8, so that decoding a rune is reading a character.
* `*html.Node` is modelled by the tree `Node` (a node with the ordered list of its children).
  The links `Parent`, `PrevSibling` and `NextSibling` that `printNode` reads off a node are
  passed to `printNode` as three `Option Node` arguments; `printChildren` derives them from
  the children list, exactly as the links of a well-formed tree are laid out.
* `io.Writer` is modelled by a state type with a `Write` operation that may report an error;
  every function threads the sink state explicitly and stops at the first error.
* `unicode.IsPunct` reads a table that changes with the Unicode version of the Go release.
  `printNode` and the functions around it take this function as the argument `IsPunct`, and
  the general theorems hold for every such function. Where a rendering is evaluated on an
  example, the table of Unicode 15.0.0 is used.
-/

namespace htmlformat

/-! ## Library functions used by `format.go` -/

/-- Go's `error` values that can reach `printNode`: the scanner's `bufio.ErrTooLong` and
whatever error a sink reports from `Write`. -/
inductive Error where
  | ErrTooLong
  | other (msg : String)
deriving DecidableEq, Repr

/-- An `io.Writer`: `Write` takes the sink state and the text and returns the state after the
call together with the error, if any. -/
structure Writer (σ : Type) where
  Write : σ → String → σ × Option Error

/-- The sink `*strings.Builder`: it appends and never fails. -/
def stringsBuilder : Writer String where
  Write w p := (w ++ p, none)

/-- Go's `if err = f(...); err != nil { return }` followed by the rest of the function. -/
def andThen {σ : Type} (r : σ × Option Error) (k : σ → σ × Option Error) : σ × Option Error :=
  match r with
  | (w, none) => k w
  | (w, some e) => (w, some e)

/-- The code points for which `unicode.IsSpace` holds: in Latin-1 the characters
`\t \n \v \f \r`, space, U+0085 and U+00A0; beyond Latin-1 the characters with the property
White_Space: U+1680, U+2000 to U+200A, U+2028, U+2029, U+202F, U+205F and U+3000. -/
def unicode.isSpaceCode (n : Nat) : Bool :=
  n == 0x09 || n == 0x0A || n == 0x0B || n == 0x0C || n == 0x0D || n == 0x20 ||
  n == 0x85 || n == 0xA0 || n == 0x1680 || (0x2000 ≤ n && n ≤ 0x200A) ||
  n == 0x2028 || n == 0x2029 || n == 0x202F || n == 0x205F || n == 0x3000

/-- Go's `unicode.IsSpace`. -/
def unicode.IsSpace (r : Char) : Bool := unicode.isSpaceCode r.toNat

/-- The ranges of code points of general category P (Pc, Pd, Ps, Pe, Pi, Pf, Po) in
Unicode 15.0.0, as inclusive pairs: the table `unicode.Punct` of Go 1.21. -/
def unicode.punctRanges : List (Nat × Nat) :=
  [(0x21, 0x23), (0x25, 0x2A), (0x2C, 0x2F), (0x3A, 0x3B), (0x3F, 0x40), (0x5B, 0x5D),
   (0x5F, 0x5F), (0x7B, 0x7B), (0x7D, 0x7D), (0xA1, 0xA1), (0xA7, 0xA7), (0xAB, 0xAB),
   (0xB6, 0xB7), (0xBB, 0xBB), (0xBF, 0xBF), (0x37E, 0x37E), (0x387, 0x387), (0x55A, 0x55F),
   (0x589, 0x58A), (0x5BE, 0x5BE), (0x5C0, 0x5C0), (0x5C3, 0x5C3), (0x5C6, 0x5C6),
   (0x5F3, 0x5F4), (0x609, 0x60A), (0x60C, 0x60D), (0x61B, 0x61B), (0x61D, 0x61F),
   (0x66A, 0x66D), (0x6D4, 0x6D4), (0x700, 0x70D), (0x7F7, 0x7F9), (0x830, 0x83E),
   (0x85E, 0x85E), (0x964, 0x965), (0x970, 0x970), (0x9FD, 0x9FD), (0xA76, 0xA76),
   (0xAF0, 0xAF0), (0xC77, 0xC77), (0xC84, 0xC84), (0xDF4, 0xDF4), (0xE4F, 0xE4F),
   (0xE5A, 0xE5B), (0xF04, 0xF12), (0xF14, 0xF14), (0xF3A, 0xF3D), (0xF85, 0xF85),
   (0xFD0, 0xFD4), (0xFD9, 0xFDA), (0x104A, 0x104F), (0x10FB, 0x10FB), (0x1360, 0x1368),
   (0x1400, 0x1400), (0x166E, 0x166E), (0x169B, 0x169C), (0x16EB, 0x16ED), (0x1735, 0x1736),
   (0x17D4, 0x17D6), (0x17D8, 0x17DA), (0x1800, 0x180A), (0x1944, 0x1945), (0x1A1E, 0x1A1F),
   (0x1AA0, 0x1AA6), (0x1AA8, 0x1AAD), (0x1B5A, 0x1B60), (0x1B7D, 0x1B7E), (0x1BFC, 0x1BFF),
   (0x1C3B, 0x1C3F), (0x1C7E, 0x1C7F), (0x1CC0, 0x1CC7), (0x1CD3, 0x1CD3), (0x2010, 0x2027),
   (0x2030, 0x2043), (0x2045, 0x2051), (0x2053, 0x205E), (0x207D, 0x207E), (0x208D, 0x208E),
   (0x2308, 0x230B), (0x2329, 0x232A), (0x2768, 0x2775), (0x27C5, 0x27C6), (0x27E6, 0x27EF),
   (0x2983, 0x2998), (0x29D8, 0x29DB), (0x29FC, 0x29FD), (0x2CF9, 0x2CFC), (0x2CFE, 0x2CFF),
   (0x2D70, 0x2D70), (0x2E00, 0x2E2E), (0x2E30, 0x2E4F), (0x2E52, 0x2E5D), (0x3001, 0x3003),
   (0x3008, 0x3011), (0x3014, 0x301F), (0x3030, 0x3030), (0x303D, 0x303D), (0x30A0, 0x30A0),
   (0x30FB, 0x30FB), (0xA4FE, 0xA4FF), (0xA60D, 0xA60F), (0xA673, 0xA673), (0xA67E, 0xA67E),
   (0xA6F2, 0xA6F7), (0xA874, 0xA877), (0xA8CE, 0xA8CF), (0xA8F8, 0xA8FA), (0xA8FC, 0xA8FC),
   (0xA92E, 0xA92F), (0xA95F, 0xA95F), (0xA9C1, 0xA9CD), (0xA9DE, 0xA9DF), (0xAA5C, 0xAA5F),
   (0xAADE, 0xAADF), (0xAAF0, 0xAAF1), (0xABEB, 0xABEB), (0xFD3E, 0xFD3F), (0xFE10, 0xFE19),
   (0xFE30, 0xFE52), (0xFE54, 0xFE61), (0xFE63, 0xFE63), (0xFE68, 0xFE68), (0xFE6A, 0xFE6B),
   (0xFF01, 0xFF03), (0xFF05, 0xFF0A), (0xFF0C, 0xFF0F), (0xFF1A, 0xFF1B), (0xFF1F, 0xFF20),
   (0xFF3B, 0xFF3D), (0xFF3F, 0xFF3F), (0xFF5B, 0xFF5B), (0xFF5D, 0xFF5D), (0xFF5F, 0xFF65),
   (0x10100, 0x10102), (0x1039F, 0x1039F), (0x103D0, 0x103D0), (0x1056F, 0x1056F),
   (0x10857, 0x10857), (0x1091F, 0x1091F), (0x1093F, 0x1093F), (0x10A50, 0x10A58),
   (0x10A7F, 0x10A7F), (0x10AF0, 0x10AF6), (0x10B39, 0x10B3F), (0x10B99, 0x10B9C),
   (0x10EAD, 0x10EAD), (0x10F55, 0x10F59), (0x10F86, 0x10F89), (0x11047, 0x1104D),
   (0x110BB, 0x110BC), (0x110BE, 0x110C1), (0x11140, 0x11143), (0x11174, 0x11175),
   (0x111C5, 0x111C8), (0x111CD, 0x111CD), (0x111DB, 0x111DB), (0x111DD, 0x111DF),
   (0x11238, 0x1123D), (0x112A9, 0x112A9), (0x1144B, 0x1144F), (0x1145A, 0x1145B),
   (0x1145D, 0x1145D), (0x114C6, 0x114C6), (0x115C1, 0x115D7), (0x11641, 0x11643),
   (0x11660, 0x1166C), (0x116B9, 0x116B9), (0x1173C, 0x1173E), (0x1183B, 0x1183B),
   (0x11944, 0x11946), (0x119E2, 0x119E2), (0x11A3F, 0x11A46), (0x11A9A, 0x11A9C),
   (0x11A9E, 0x11AA2), (0x11B00, 0x11B09), (0x11C41, 0x11C45), (0x11C70, 0x11C71),
   (0x11EF7, 0x11EF8), (0x11F43, 0x11F4F), (0x11FFF, 0x11FFF), (0x12470, 0x12474),
   (0x12FF1, 0x12FF2), (0x16A6E, 0x16A6F), (0x16AF5, 0x16AF5), (0x16B37, 0x16B3B),
   (0x16B44, 0x16B44), (0x16E97, 0x16E9A), (0x16FE2, 0x16FE2), (0x1BC9F, 0x1BC9F),
   (0x1DA87, 0x1DA8B), (0x1E95E, 0x1E95F)]

/-- Membership of a code point in the table of category P. -/
def unicode.isPunctCode (n : Nat) : Bool :=
  unicode.punctRanges.any fun p => p.1 ≤ n && n ≤ p.2

/-- Go's `unicode.IsPunct`, with the table of Unicode 15.0.0. The table changes from one Go
release to another, so the functions of `format.go` below take the predicate as an argument,
and this one is the instance at which they are evaluated on examples. -/
def unicode.IsPunct (r : Char) : Bool := unicode.isPunctCode r.toNat

/-- Go's `utf8.RuneError`, the result of decoding an empty string. -/
def utf8.RuneError : Char := Char.ofNat 0xFFFD

/-- Go's `strings.TrimSpace`: the string without its leading and trailing white space. -/
def strings.TrimSpace (s : String) : String :=
  String.mk ((s.data.dropWhile unicode.IsSpace).reverse.dropWhile unicode.IsSpace).reverse

/-- Go's `strings.Repeat`. -/
def strings.Repeat (s : String) : Nat → String
  | 0 => ""
  | count + 1 => s ++ strings.Repeat s count

/-- The replacement `html.EscapeString` (golang.org/x/net/html) makes for one character:
the characters of `escapedChars` are `&`, apostrophe, `<`, `>`, double quote and `\r`. -/
def html.escapeChar (c : Char) : List Char :=
  if c = '&' then "&amp;".data
  else if c = Char.ofNat 39 then "&#39;".data
  else if c = '<' then "&lt;".data
  else if c = '>' then "&gt;".data
  else if c = Char.ofNat 34 then "&#34;".data
  else if c = '\r' then "&#13;".data
  else [c]

/-- Character-wise escaping of a list of characters. -/
def html.escapeChars : List Char → List Char
  | [] => []
  | c :: cs => html.escapeChar c ++ html.escapeChars cs

/-- The function `html.EscapeString` of golang.org/x/net/html. -/
def html.EscapeString (s : String) : String := String.mk (html.escapeChars s.data)

/-- Go's `bufio.MaxScanTokenSize`: the size the scanner's buffer may grow to. -/
def bufio.MaxScanTokenSize : Nat := 64 * 1024

/-- The text between line feeds: a final line without a line feed counts when it is not
empty, as `bufio.ScanLines` delivers it at the end of the input. -/
def bufio.rawLines : List Char → List (List Char)
  | [] => []
  | c :: cs =>
    if c = '\n' then [] :: bufio.rawLines cs
    else
      match bufio.rawLines cs with
      | [] => [[c]]
      | l :: ls => (c :: l) :: ls

/-- The helper `dropCR` of `bufio.ScanLines`: one trailing carriage return is removed. -/
def bufio.dropCR (l : List Char) : List Char :=
  if l.getLast? = some '\r' then l.dropLast else l

/-- The number of bytes of the UTF-8 encoding of a list of characters. -/
def utf8.byteLen : List Char → Nat
  | [] => 0
  | c :: cs => c.utf8Size + utf8.byteLen cs

/-- What a `bufio.Scanner` with the split function `ScanLines` and the default buffer
yields over the successive raw lines: the tokens delivered by the calls of `Scan` that
return true, and the value of `Err()` afterwards. A raw line of `MaxScanTokenSize` bytes
or more fills the buffer before its line feed (or the end of the input) is seen; `Scan`
then stops with `ErrTooLong`. -/
def bufio.scan : List (List Char) → List String × Option Error
  | [] => ([], none)
  | l :: ls =>
    if bufio.MaxScanTokenSize ≤ utf8.byteLen l then ([], some Error.ErrTooLong)
    else ((String.mk (bufio.dropCR l)) :: (bufio.scan ls).1, (bufio.scan ls).2)

/-- The scanner `bufio.NewScanner(strings.NewReader(s))` run to its end. -/
def bufio.scanLines (s : String) : List String × Option Error :=
  bufio.scan (bufio.rawLines s.data)

/-! ## The data model (golang.org/x/net/html) -/

/-- The constants of `html.NodeType`. -/
inductive NodeType where
  | ErrorNode
  | TextNode
  | DocumentNode
  | ElementNode
  | CommentNode
  | DoctypeNode
  | RawNode
deriving DecidableEq, Repr

/-- The values of `atom.Atom` that `format.go` names, `Zero` for a tag without an atom and
`Other` for every other atom of the table (given by its tag name). -/
inductive atom.Atom where
  | Zero
  | Other (name : String)
  | Area | Base | Br | Col | Command | Embed | Hr | Img | Input | Keygen | Link
  | Meta | Param | Source | Track | Wbr
  | B | I | U | S | A | Code | Em | Time | Span | Strong | Small | Mark | Del
  | Ins | Sub | Sup | Q | Cite | Dfn | Abbr | Data | Var | Samp
  | Kbd | Label | Button | Select | Textarea | Map | Object | Iframe | Audio
  | Video | Canvas | Meter | Progress | Math
  | Style | Script
deriving Repr

/-- An attribute `html.Attribute`. -/
structure Attribute where
  Namespace : String
  Key : String
  Val : String
deriving DecidableEq, Repr

/-- A node `html.Node` with its children in order (`FirstChild`, then each `NextSibling`). -/
inductive Node where
  | mk (Type' : NodeType) (DataAtom : atom.Atom) (Data : String) (Attr : List Attribute)
      (children : List Node)

/-- The field `Type` of a node. -/
def Node.Type' : Node → NodeType
  | .mk t _ _ _ _ => t

/-- The field `DataAtom` of a node. -/
def Node.DataAtom : Node → atom.Atom
  | .mk _ a _ _ _ => a

/-- The field `Data` of a node. -/
def Node.Data : Node → String
  | .mk _ _ d _ _ => d

/-- The field `Attr` of a node. -/
def Node.Attr : Node → List Attribute
  | .mk _ _ _ as _ => as

/-- The children of a node, from `FirstChild` to `LastChild`. -/
def Node.children : Node → List Node
  | .mk _ _ _ _ cs => cs

/-- A node as `Nodes` receives it through a pointer: the node and the links it carries. -/
structure NodeRef where
  Parent : Option Node
  PrevSibling : Option Node
  NextSibling : Option Node
  node : Node

/-! ## `format.go` -/

/-- Is this node a tag with no end tag such as `<meta>` or `<br>`? -/
def isVoidElement (n : Node) : Bool :=
  match n.DataAtom with
  | .Area | .Base | .Br | .Col | .Command | .Embed
  | .Hr | .Img | .Input | .Keygen | .Link
  | .Meta | .Param | .Source | .Track | .Wbr => true
  | _ => false

/-- The function `isInlineElement`. -/
def isInlineElement (n : Node) : Bool :=
  match n.DataAtom with
  | .B | .I | .U | .S
  | .A | .Br | .Code | .Em | .Time
  | .Span | .Strong | .Small | .Mark | .Del
  | .Ins | .Sub | .Sup | .Q | .Cite
  | .Dfn | .Abbr | .Data | .Var | .Samp
  | .Kbd | .Label | .Button | .Select | .Textarea
  | .Img | .Map | .Object | .Iframe | .Audio
  | .Video | .Canvas | .Meter | .Progress | .Math => true
  | _ => false

/-- The function `isSpecialContentElement`; `none` is the nil pointer. -/
def isSpecialContentElement (n : Option Node) : Bool :=
  match n with
  | none => false
  | some n =>
    match n.DataAtom with
    | .Style | .Script => true
    | _ => false

/-- The function `getFirstRune`. -/
def getFirstRune (s : String) : Char :=
  match s.data with
  | [] => utf8.RuneError
  | c :: _ => c

/-- The function `getLastRune`. -/
def getLastRune (s : String) : Char :=
  match s.data.getLast? with
  | none => utf8.RuneError
  | some c => c

/-- The function `collapseWhitespace`. -/
def collapseWhitespace (s : String) : String :=
  if s = "" then ""
  else
    let leading := unicode.IsSpace (getFirstRune s)
    let trailing := unicode.IsSpace (getLastRune s)
    let out := strings.TrimSpace s
    if leading && trailing then " " ++ out ++ " "
    else if leading then " " ++ out
    else if trailing then out ++ " "
    else out

/-- The function `hasSingleTextChild`; `FirstChild == LastChild` with `FirstChild != nil`
says that the node has exactly one child. -/
def hasSingleTextChild (n : Option Node) : Bool :=
  match n with
  | none => false
  | some n =>
    match n.children with
    | [c] => c.Type' == NodeType.TextNode
    | _ => false

/-- The function `printIndent`, with the package variable `IndentString` as an argument. -/
def printIndent {σ : Type} (W : Writer σ) (IndentString : String) (level : Nat) (w : σ) :
    σ × Option Error :=
  W.Write w (strings.Repeat IndentString level)

/-- The loop `for scanner.Scan()` of `printNode` over the tokens the scanner delivers. -/
def printScanned {σ : Type} (W : Writer σ) (IndentString : String) (level : Nat) :
    List String → σ → σ × Option Error
  | [], w => (w, none)
  | t :: ts, w =>
    andThen (W.Write w "\n") fun w =>
    andThen (printIndent W IndentString level w) fun w =>
    andThen (W.Write w t) fun w =>
    printScanned W IndentString level ts w

/-- The attribute loop of `printNode`. -/
def printAttrs {σ : Type} (W : Writer σ) : List Attribute → σ → σ × Option Error
  | [], w => (w, none)
  | a :: as, w =>
    andThen (W.Write w (" " ++ a.Key ++ "=\"" ++ html.EscapeString a.Val ++ "\"")) fun w =>
    printAttrs W as w

mutual
/-- The function `printNode`. The arguments `parent`, `prev` and `next` are the links
`n.Parent`, `n.PrevSibling` and `n.NextSibling`; the argument `IsPunct` is the library
function `unicode.IsPunct` of the Go release the package is built with. -/
def printNode {σ : Type} (IsPunct : Char → Bool) (W : Writer σ) (IndentString : String)
    (parent prev next : Option Node) : Node → Bool → Nat → σ → σ × Option Error
  | .mk ty da data attr children, pre, level, w =>
    let n := Node.mk ty da data attr children
    match ty with
    | .TextNode =>
      if pre then W.Write w (html.EscapeString data)
      else
        let s := strings.TrimSpace data
        if s ≠ "" then
          andThen
            (if !isSpecialContentElement parent && !hasSingleTextChild parent &&
                (prev.isNone || !IsPunct (getFirstRune s)) then
              printIndent W IndentString level w
            else (w, none)) fun w =>
          if isSpecialContentElement parent then
            let scanner := bufio.scanLines s
            andThen (printScanned W IndentString level scanner.1 w) fun w =>
            andThen (w, scanner.2) fun w =>
            W.Write w "\n"
          else
            andThen (W.Write w (collapseWhitespace s)) fun w =>
            if !hasSingleTextChild parent then
              if unicode.IsSpace (getLastRune data) || next.isNone ||
                  (next.any fun m => m.Type' == NodeType.ElementNode && !isInlineElement m) then
                W.Write w "\n"
              else (w, none)
            else (w, none)
        else (w, none)
    | .ElementNode =>
      andThen
        (if !pre && (prev.isNone ||
            (prev.any fun p => p.Type' != NodeType.TextNode ||
              unicode.IsSpace (getLastRune p.Data))) then
          printIndent W IndentString level w
        else (w, none)) fun w =>
      andThen (W.Write w ("<" ++ data)) fun w =>
      andThen (printAttrs W attr w) fun w =>
      andThen (W.Write w ">") fun w =>
      andThen
        (if !pre && !hasSingleTextChild (some n) then W.Write w "\n" else (w, none)) fun w =>
      if !isVoidElement n then
        andThen
          (printChildrenLoop IsPunct W IndentString (some n) none children
            (pre || data == "pre" || data == "code") (level + 1) w) fun w =>
        andThen
          (if !pre && (isSpecialContentElement (some n) || !hasSingleTextChild (some n)) then
            printIndent W IndentString level w
          else (w, none)) fun w =>
        andThen (W.Write w ("</" ++ data ++ ">")) fun w =>
        if !pre && (next.isNone ||
            (next.any fun m => m.Type' == NodeType.ElementNode) ||
            (next.any fun m => m.Type' == NodeType.TextNode &&
              !IsPunct (getFirstRune m.Data))) then
          W.Write w "\n"
        else (w, none)
      else (w, none)
    | .CommentNode =>
      andThen (printIndent W IndentString level w) fun w =>
      andThen (W.Write w ("<!--" ++ data ++ "-->\n")) fun w =>
      printChildrenLoop IsPunct W IndentString (some n) none children false level w
    | .DoctypeNode =>
      andThen (W.Write w ("<!doctype " ++ data ++ ">\n")) fun w =>
      printChildrenLoop IsPunct W IndentString (some n) none children false level w
    | .DocumentNode =>
      printChildrenLoop IsPunct W IndentString (some n) none children false level w
    | .ErrorNode => (w, none)
    | .RawNode => (w, none)
/-- The loop of `printChildren` from the child `child` on: `prev` is the child printed
before it (its `PrevSibling`), and the `NextSibling` of a child is the head of the rest. -/
def printChildrenLoop {σ : Type} (IsPunct : Char → Bool) (W : Writer σ)
    (IndentString : String)
    (parent prev : Option Node) : List Node → Bool → Nat → σ → σ × Option Error
  | [], _, _, w => (w, none)
  | child :: rest, pre, level, w =>
    andThen (printNode IsPunct W IndentString parent prev rest.head? child pre level w) fun w =>
    printChildrenLoop IsPunct W IndentString parent (some child) rest pre level w
end

/-- The function `printChildren`: the loop started at `n.FirstChild`. -/
def printChildren {σ : Type} (IsPunct : Char → Bool) (W : Writer σ) (IndentString : String)
    (n : Node) (pre : Bool) (level : Nat) (w : σ) : σ × Option Error :=
  printChildrenLoop IsPunct W IndentString (some n) none n.children pre level w

/-- The function `Nodes`: every node is printed at level 0, outside raw mode. -/
def Nodes {σ : Type} (IsPunct : Char → Bool) (W : Writer σ) (IndentString : String) :
    List NodeRef → σ → σ × Option Error
  | [], w => (w, none)
  | r :: rs, w =>
    andThen (printNode IsPunct W IndentString r.Parent r.PrevSibling r.NextSibling r.node false 0 w)
      fun w => Nodes IsPunct W IndentString rs w

/-! ## Node constructors -/

/-- A text node. -/
def text (data : String) : Node := .mk .TextNode .Zero data [] []

/-- An element node. -/
def element (a : atom.Atom) (tag : String) (attr : List Attribute) (children : List Node) :
    Node :=
  .mk .ElementNode a tag attr children

/-- A node that `html.ParseFragment` returns: detached, without parent and siblings. -/
def detached (n : Node) : NodeRef := ⟨none, none, none, n⟩

/-! ## Statement vocabulary -/

/-- The concatenation of a list of strings, in order. -/
def concatAll : List String → String
  | [] => ""
  | s :: ss => s ++ concatAll ss

/-- The text of one attribute inside an opening tag. -/
def attrText (a : Attribute) : String :=
  " " ++ a.Key ++ "=\"" ++ html.EscapeString a.Val ++ "\""

/-- The opening tag of an element: `<tag`, the attributes in order, `>`. -/
def openTag (n : Node) : String :=
  "<" ++ n.Data ++ concatAll (n.Attr.map attrText) ++ ">"

/-- The closing tag of an element. -/
def closeTag (n : Node) : String := "</" ++ n.Data ++ ">"

/-- A sink transformer that only appends: its result on `w` is `w` followed by its result on
the empty builder. -/
def Appends (f : String → String × Option Error) : Prop :=
  ∀ w, f w = (w ++ (f "").1, (f "").2)

/-- The condition under which `printNode` indents the opening tag of an element. -/
def indentsOpen (pre : Bool) (prev : Option Node) : Bool :=
  !pre && (prev.isNone ||
    (prev.any fun p => p.Type' != NodeType.TextNode || unicode.IsSpace (getLastRune p.Data)))

/-- The condition under which `printNode` breaks the line after the opening tag. -/
def breaksOpen (pre : Bool) (n : Node) : Bool :=
  !pre && !hasSingleTextChild (some n)

/-- The condition under which `printNode` indents the closing tag of an element. -/
def indentsClose (pre : Bool) (n : Node) : Bool :=
  !pre && (isSpecialContentElement (some n) || !hasSingleTextChild (some n))

/-- The condition under which `printNode` breaks the line after the closing tag. -/
def breaksClose (IsPunct : Char → Bool) (pre : Bool) (next : Option Node) : Bool :=
  !pre && (next.isNone ||
    (next.any fun m => m.Type' == NodeType.ElementNode) ||
    (next.any fun m => m.Type' == NodeType.TextNode &&
      !IsPunct (getFirstRune m.Data)))

/-- The condition under which `printNode` indents a text node (outside raw mode); `s` is the
trimmed text. -/
def indentsText (IsPunct : Char → Bool) (parent prev : Option Node) (s : String) : Bool :=
  !isSpecialContentElement parent && !hasSingleTextChild parent &&
    (prev.isNone || !IsPunct (getFirstRune s))

/-- The condition under which `printNode` breaks the line after a text node whose parent
is not a script or style element; `data` is the untrimmed text. -/
def breaksText (parent next : Option Node) (data : String) : Bool :=
  !hasSingleTextChild parent &&
    (unicode.IsSpace (getLastRune data) || next.isNone ||
      (next.any fun m => m.Type' == NodeType.ElementNode && !isInlineElement m))

mutual
/-- Every text node of the tree whose parent is a script or style element has, after
trimming, only lines shorter than `bufio.MaxScanTokenSize` bytes. -/
def linesFit (parent : Option Node) : Node → Bool
  | .mk ty da data attr children =>
    (!(ty == NodeType.TextNode && isSpecialContentElement parent) ||
      (bufio.rawLines (strings.TrimSpace data).data).all fun l =>
        utf8.byteLen l < bufio.MaxScanTokenSize) &&
    linesFitList (some (.mk ty da data attr children)) children
/-- The condition `linesFit` for the children of `parent`. -/
def linesFitList (parent : Option Node) : List Node → Bool
  | [] => true
  | c :: cs => linesFit parent c && linesFitList parent cs
end

/-- Every error of the sink transformer `f` satisfies `P`. -/
def Errs {σ : Type} (P : Option Error → Prop) (f : σ → σ × Option Error) : Prop :=
  ∀ w, P (f w).2

/-! ## The normaliser in the words of the specification -/

/-- Spec wording (section 4.2): every maximal run of white-space characters is replaced by a
single space; `inRun` says that the character before was white space. -/
def collapseRuns : Bool → List Char → List Char
  | _, [] => []
  | inRun, c :: cs =>
    if unicode.IsSpace c then
      if inRun then collapseRuns true cs else ' ' :: collapseRuns true cs
    else c :: collapseRuns false cs

/-- Spec wording (section 4.2) of the text normaliser: one space if the text begins with
white space, the trimmed body with every maximal run of white space collapsed to one space,
one space if the text ends with white space. -/
def collapseSpec (s : String) : String :=
  (if unicode.IsSpace (getFirstRune s) then " " else "") ++
    String.mk (collapseRuns false (strings.TrimSpace s).data) ++
    (if unicode.IsSpace (getLastRune s) then " " else "")

/-- Two adjacent white-space characters occur in the list. -/
def hasAdjacentSpaces : List Char → Bool
  | [] => false
  | [_] => false
  | a :: b :: cs => (unicode.IsSpace a && unicode.IsSpace b) || hasAdjacentSpaces (b :: cs)

/-! ## Example trees and sinks -/

/-- The tree of `<ol> <li class="name"> A </li> <li> B </li> </ol>`. -/
def olExample : Node :=
  element (.Other "ol") "ol" []
    [text " ", element (.Other "li") "li" [⟨"", "class", "name"⟩] [text " A "], text " ",
      element (.Other "li") "li" [] [text " B "], text " "]

/-- The tree of `<!doctype html><html><head></head><body></body></html>` as `html.Parse`
builds it. -/
def documentExample : Node :=
  .mk .DocumentNode .Zero "" []
    [.mk .DoctypeNode .Zero "html" [] [],
      element (.Other "html") "html" []
        [element (.Other "head") "head" [] [], element (.Other "body") "body" [] []]]

/-- The link `<a href="http://example.com">Test</a>` of the test suite. -/
def linkExample : Node :=
  element .A "a" [⟨"", "href", "http://example.com"⟩] [text "Test"]

/-- The tree of `<ul><li><a href="http://example.com">Test</a>.</li></ul>`. -/
def ulExample : Node :=
  element (.Other "ul") "ul" [] [element (.Other "li") "li" [] [linkExample, text "."]]

/-- The tree of `<div><time>19:00</time>–<time>20:00</time></div>`. -/
def timeExample : Node :=
  element (.Other "div") "div" []
    [element .Time "time" [] [text "19:00"], text "–", element .Time "time" [] [text "20:00"]]

/-- The tree of `<p><a href="https://example.com">Link</a>. <a
href="https://example.org">Another</a></p>`. -/
def paragraphExample : Node :=
  element (.Other "p") "p" []
    [element .A "a" [⟨"", "href", "https://example.com"⟩] [text "Link"], text ". ",
      element .A "a" [⟨"", "href", "https://example.org"⟩] [text "Another"]]

/-- A `<br>` element that was given one text child. -/
def brWithText : Node := element .Br "br" [] [text "x"]

/-- A line of `n` letters `a`. -/
def aLine (n : Nat) : String := String.mk (List.replicate n 'a')

/-- A script element whose text is one line of 65536 bytes. -/
def longScript : Node := element .Script "script" [] [text (aLine 65536)]

/-- A sink whose every write fails, such as a closed pipe. -/
def closedPipe : Writer Unit where
  Write w _ := (w, some (Error.other "closed pipe"))

/-! ## Further spec wording and example trees -/

/-- Spec wording (section 4.4) of the raw-mode flag handed to the children of an element:
the flag of the element, or the element is a raw-content (script or style) element, or its
tag is `pre` or `code`. -/
def rawFlagSpec (pre : Bool) (n : Node) : Bool :=
  pre || isSpecialContentElement (some n) || n.Data == "pre" || n.Data == "code"

/-- A script element whose text holds a `<`. -/
def scriptExample : Node := element .Script "script" [] [text "a<b"]

/-- Spec wording (section 4.4, claim C13) of the leading indentation of an element: it is
written unless the element is outside raw mode and its previous sibling is a text node that
does not end in white space. -/
def indentsOpenSpec (pre : Bool) (prev : Option Node) : Bool :=
  !(!pre && (prev.any fun p =>
    p.Type' == NodeType.TextNode && !unicode.IsSpace (getLastRune p.Data)))

/-- A `pre` element with two `span` children. -/
def preExample : Node :=
  element (.Other "pre") "pre" []
    [element .Span "span" [] [text "a"], element .Span "span" [] [text "b"]]

/-- Spec wording (section 4.4, claim C15) of the trailing break of a text node: the text that
was written ends with white space, or there is no next sibling, or the next sibling is an
element that is not inline. -/
def breaksTextSpec (written : String) (next : Option Node) : Bool :=
  unicode.IsSpace (getLastRune written) || next.isNone ||
    (next.any fun m => m.Type' == NodeType.ElementNode && !isInlineElement m)

/-- The tree of `<p>a <b>c</b></p>`. -/
def boldExample : Node :=
  element (.Other "p") "p" [] [text "a ", element .B "b" [] [text "c"]]

/-- Spec wording (section 4.4, claim C16) of the rendering of a text under a script or style
element: for each line of the original, untrimmed text, a line break, the indentation and
the line as it is, then one final line break. -/
def rawContentSpec (I : String) (level : Nat) (data : String) : String :=
  concatAll ((bufio.rawLines data.data).map fun l =>
    "\n" ++ strings.Repeat I level ++ String.mk l) ++ "\n"

/-- A comment node. -/
def comment (data : String) : Node := .mk .CommentNode .Zero data [] []

/-- The tree of `<div><pre><span>a</span><span>b</span></pre></div>`. -/
def divPreExample : Node := element (.Other "div") "div" [] [preExample]

/-- The tree that `html.ParseFragment` builds for the rendering of `divPreExample`,
`<div>\n  <pre>\n<span>a</span><span>b</span>  </pre>\n</div>\n`: the line break right
after `<pre>` is dropped by the parser, the two spaces before `</pre>` become a text child
of the `pre` element. The line break after `</div>` is a second top-level text node. -/
def divPreReparsed : Node :=
  element (.Other "div") "div" []
    [text "\n  ",
      element (.Other "pre") "pre" []
        [element .Span "span" [] [text "a"], element .Span "span" [] [text "b"], text "  "],
      text "\n"]

/-- The tree of `<pre>a<!--c-->b</pre>`. -/
def preCommentExample : Node :=
  element (.Other "pre") "pre" [] [text "a", comment "c", text "b"]

/-- The tree of `<li>a<div>b</div></li>`. -/
def liDivExample : Node :=
  element (.Other "li") "li" [] [text "a", element (.Other "div") "div" [] [text "b"]]

/-- The tree of `<p><br>.</p>`. -/
def brPeriodExample : Node :=
  element (.Other "p") "p" [] [element .Br "br" [] [], text "."]

/-- A `<style>` element whose text is one line of 65536 bytes. -/
def longStyle : Node := element .Style "style" [] [text (aLine 65536)]

/-- The tree of `<div><script>…</script></div>`, the script being `longScript`. -/
def longDiv : Node := element (.Other "div") "div" [] [longScript]

/-- The tree of `<p><script>…</script>.</p>`, the script being `longScript`. -/
def longParagraph : Node := element (.Other "p") "p" [] [longScript, text "."]

/-! # Theorems

In the statements below `Q` stands for the function `unicode.IsPunct` that `printNode` is
given: they hold for the table of every Go release. The examples are evaluated at
`unicode.IsPunct`, the table of Unicode 15.0.0; their punctuation characters are the period
and the en dash. -/

variable {Q : Char → Bool}


/-! ## Sequencing and the builder sink -/

@[simp] theorem andThen_ok {σ : Type} (w : σ) (k : σ → σ × Option Error) :
    andThen (w, none) k = k w := rfl

@[simp] theorem andThen_err {σ : Type} (w : σ) (e : Error) (k : σ → σ × Option Error) :
    andThen (w, some e) k = (w, some e) := rfl

@[simp] theorem stringsBuilder_Write (w p : String) :
    stringsBuilder.Write w p = (w ++ p, none) := rfl

@[simp] theorem printIndent_builder (I : String) (level : Nat) (w : String) :
    printIndent stringsBuilder I level w = (w ++ strings.Repeat I level, none) := rfl

theorem printAttrs_builder (attrs : List Attribute) (w : String) :
    printAttrs stringsBuilder attrs w = (w ++ concatAll (attrs.map attrText), none) := by
  induction attrs generalizing w with
  | nil => simp [printAttrs, concatAll]
  | cons a as ih =>
    simp [printAttrs, ih, attrText, concatAll, String.append_assoc]

theorem printScanned_builder (I : String) (level : Nat) (ts : List String) (w : String) :
    printScanned stringsBuilder I level ts w =
      (w ++ concatAll (ts.map fun t => "\n" ++ strings.Repeat I level ++ t), none) := by
  induction ts generalizing w with
  | nil => simp [printScanned, concatAll]
  | cons t ts ih =>
    simp [printScanned, ih, concatAll, String.append_assoc]

theorem Appends.pure : Appends (fun w => (w, none)) := by
  intro w; simp

theorem Appends.write (p : String) : Appends (fun w => stringsBuilder.Write w p) := by
  intro w; simp

theorem Appends.seq {f : String → String × Option Error}
    {k : String → String × Option Error} (hf : Appends f) (hk : Appends k) :
    Appends (fun w => andThen (f w) k) := by
  intro w
  beta_reduce
  rw [hf w]
  cases h : (f "").2 with
  | none =>
    have h0 : f "" = ((f "").1, none) := by rw [← h]
    rw [h0]
    simp only [andThen_ok]
    rw [hk (w ++ (f "").1), hk (f "").1, String.append_assoc]
  | some e =>
    have h0 : f "" = ((f "").1, some e) := by rw [← h]
    rw [h0]
    simp

theorem Appends.ite {c : Prop} [Decidable c] {f g : String → String × Option Error}
    (hf : Appends f) (hg : Appends g) : Appends (fun w => if c then f w else g w) := by
  intro w
  by_cases h : c
  · simp only [h, if_true]; exact hf w
  · simp only [h, if_false]; exact hg w

/-! ## Rendering on a builder only appends -/

theorem Appends.printIndent (I : String) (level : Nat) :
    Appends (fun w => printIndent stringsBuilder I level w) := by
  intro w; simp

theorem Appends.printAttrs (attrs : List Attribute) :
    Appends (fun w => printAttrs stringsBuilder attrs w) := by
  intro w; simp [printAttrs_builder]

theorem Appends.printScanned (I : String) (level : Nat) (ts : List String) :
    Appends (fun w => printScanned stringsBuilder I level ts w) := by
  intro w; simp [printScanned_builder]

theorem Appends.fail (e : Error) : Appends (fun w => (w, some e)) := by
  intro w; simp

theorem Appends.err (o : Option Error) : Appends (fun w => (w, o)) := by
  intro w; simp

theorem Appends.of_eq {f g : String → String × Option Error} (h : ∀ w, f w = g w)
    (hg : Appends g) : Appends f := by
  have : f = g := funext h
  rw [this]; exact hg

mutual
theorem printNode_appends (I : String) (parent prev next : Option Node) :
    ∀ (n : Node) (pre : Bool) (level : Nat),
      Appends (printNode Q stringsBuilder I parent prev next n pre level)
  | .mk ty da data attr children, pre, level => by
    have hc := fun p l => printChildrenLoop_appends I
      (some (Node.mk ty da data attr children)) none children p l
    cases ty
    all_goals refine Appends.of_eq (fun w => by rw [printNode]) ?_
    all_goals dsimp only
    all_goals
      repeat (first
        | exact hc _ _
        | exact Appends.pure
        | exact Appends.write _
        | exact Appends.printIndent _ _
        | exact Appends.printAttrs _
        | exact Appends.printScanned _ _ _
        | exact Appends.err _
        | apply Appends.seq
        | apply Appends.ite)
theorem printChildrenLoop_appends (I : String) (parent prev : Option Node) :
    ∀ (cs : List Node) (pre : Bool) (level : Nat),
      Appends (printChildrenLoop Q stringsBuilder I parent prev cs pre level)
  | [], _, _ => by
    refine Appends.of_eq (fun w => by rw [printChildrenLoop]) ?_
    exact Appends.pure
  | c :: rest, pre, level => by
    refine Appends.of_eq (fun w => by rw [printChildrenLoop]) ?_
    exact Appends.seq (printNode_appends I parent prev rest.head? c pre level)
      (printChildrenLoop_appends I parent (some c) rest pre level)
end


/-! ## Trimming -/

theorem TrimSpace_data (s : String) :
    (strings.TrimSpace s).data = (s.data.dropWhile unicode.IsSpace).rdropWhile unicode.IsSpace :=
  rfl

theorem rdropWhile_head? {α : Type} (p : α → Bool) (a : List α)
    (h : a.rdropWhile p ≠ []) : (a.rdropWhile p).head? = a.head? := by
  obtain ⟨t, ht⟩ := List.rdropWhile_prefix p (l := a)
  cases hb : a.rdropWhile p with
  | nil => exact absurd hb h
  | cons x xs =>
    rw [hb] at ht
    rw [← ht]
    simp

theorem rdropWhile_getLast? {α : Type} (p : α → Bool) (a : List α) (c : α)
    (h : (a.rdropWhile p).getLast? = some c) : p c = false := by
  have hne : a.rdropWhile p ≠ [] := by
    intro h0; rw [h0] at h; simp at h
  have := List.rdropWhile_last_not p a hne
  rw [List.getLast?_eq_getLast _ hne] at h
  simp only [Option.some.injEq] at h
  rw [h] at this
  simpa using this

theorem trim_head_not_space (s : String) (c : Char)
    (h : (strings.TrimSpace s).data.head? = some c) : unicode.IsSpace c = false := by
  rw [TrimSpace_data] at h
  have hne : (s.data.dropWhile unicode.IsSpace).rdropWhile unicode.IsSpace ≠ [] := by
    intro h0; rw [h0] at h; simp at h
  rw [rdropWhile_head? _ _ hne] at h
  have := List.head?_dropWhile_not unicode.IsSpace s.data
  rw [h] at this
  exact this

theorem trim_last_not_space (s : String) (c : Char)
    (h : (strings.TrimSpace s).data.getLast? = some c) : unicode.IsSpace c = false :=
  rdropWhile_getLast? _ _ c (by rw [← TrimSpace_data]; exact h)

theorem RuneError_not_space : unicode.IsSpace utf8.RuneError = false := by decide

theorem first_trim_not_space (s : String) :
    unicode.IsSpace (getFirstRune (strings.TrimSpace s)) = false := by
  unfold getFirstRune
  cases h : (strings.TrimSpace s).data with
  | nil => exact RuneError_not_space
  | cons c cs =>
    apply trim_head_not_space s c
    rw [h]; rfl

theorem last_trim_not_space (s : String) :
    unicode.IsSpace (getLastRune (strings.TrimSpace s)) = false := by
  unfold getLastRune
  cases h : (strings.TrimSpace s).data.getLast? with
  | none => exact RuneError_not_space
  | some c => exact trim_last_not_space s c h

theorem TrimSpace_idem (s : String) :
    strings.TrimSpace (strings.TrimSpace s) = strings.TrimSpace s := by
  apply String.ext
  rw [TrimSpace_data (strings.TrimSpace s)]
  have h1 : (strings.TrimSpace s).data.dropWhile unicode.IsSpace = (strings.TrimSpace s).data := by
    cases h : (strings.TrimSpace s).data with
    | nil => rfl
    | cons c cs =>
      have := trim_head_not_space s c (by rw [h]; rfl)
      simp [List.dropWhile_cons, this]
  rw [h1, TrimSpace_data, List.rdropWhile_idempotent]

/-- The normaliser leaves a trimmed string as it is. -/
theorem collapseWhitespace_TrimSpace (x : String) :
    collapseWhitespace (strings.TrimSpace x) = strings.TrimSpace x := by
  unfold collapseWhitespace
  by_cases h : strings.TrimSpace x = ""
  · simp [h]
  · simp [h, first_trim_not_space, last_trim_not_space, TrimSpace_idem]

theorem TrimSpace_eq_empty_iff (s : String) :
    strings.TrimSpace s = "" ↔ ∀ c ∈ s.data, unicode.IsSpace c = true := by
  constructor
  · intro h
    have hd : (strings.TrimSpace s).data = [] := by rw [h]
    rw [TrimSpace_data, List.rdropWhile_eq_nil_iff] at hd
    rw [← List.dropWhile_eq_nil_iff]
    cases hq : s.data.dropWhile unicode.IsSpace with
    | nil => rfl
    | cons c cs =>
      have h1 := List.head?_dropWhile_not unicode.IsSpace s.data
      rw [hq] at h1 hd
      simp only [List.head?_cons] at h1
      have h2 := hd c (List.mem_cons_self _ _)
      rw [h1] at h2
      exact absurd h2 (by decide)
  · intro h
    apply String.ext
    rw [TrimSpace_data]
    have : s.data.dropWhile unicode.IsSpace = [] := List.dropWhile_eq_nil_iff.mpr h
    rw [this]
    rfl

theorem TrimSpace_of_not_space (c : Char) (cs : List Char) (hc : unicode.IsSpace c = false) :
    (strings.TrimSpace (String.mk (c :: cs))).data.head? = some c := by
  rw [TrimSpace_data]
  have h1 : (c :: cs).dropWhile unicode.IsSpace = c :: cs := by
    simp [List.dropWhile_cons, hc]
  show ((c :: cs).dropWhile unicode.IsSpace |>.rdropWhile unicode.IsSpace).head? = some c
  rw [h1]
  have hne : (c :: cs).rdropWhile unicode.IsSpace ≠ [] := by
    intro h0
    rw [List.rdropWhile_eq_nil_iff] at h0
    have := h0 c (List.mem_cons_self _ _)
    rw [hc] at this
    exact absurd this (by decide)
  rw [rdropWhile_head? _ _ hne]
  rfl


/-! ## The rendering of one node on a builder -/

@[simp] theorem Node.Type'_mk (t : NodeType) (a : atom.Atom) (d : String)
    (as : List Attribute) (cs : List Node) : (Node.mk t a d as cs).Type' = t := rfl

@[simp] theorem Node.DataAtom_mk (t : NodeType) (a : atom.Atom) (d : String)
    (as : List Attribute) (cs : List Node) : (Node.mk t a d as cs).DataAtom = a := rfl

@[simp] theorem Node.Data_mk (t : NodeType) (a : atom.Atom) (d : String)
    (as : List Attribute) (cs : List Node) : (Node.mk t a d as cs).Data = d := rfl

@[simp] theorem Node.Attr_mk (t : NodeType) (a : atom.Atom) (d : String)
    (as : List Attribute) (cs : List Node) : (Node.mk t a d as cs).Attr = as := rfl

@[simp] theorem Node.children_mk (t : NodeType) (a : atom.Atom) (d : String)
    (as : List Attribute) (cs : List Node) : (Node.mk t a d as cs).children = cs := rfl

theorem printNode_element_builder (I : String) (parent prev next : Option Node) (n : Node)
    (pre : Bool) (level : Nat) (w : String) (h : n.Type' = NodeType.ElementNode) :
    printNode Q stringsBuilder I parent prev next n pre level w =
      if isVoidElement n then
        (w ++ (if indentsOpen pre prev then strings.Repeat I level else "") ++ openTag n ++
          (if breaksOpen pre n then "\n" else ""), none)
      else
        andThen
          (printChildren Q stringsBuilder I n (pre || n.Data == "pre" || n.Data == "code")
            (level + 1)
            (w ++ (if indentsOpen pre prev then strings.Repeat I level else "") ++ openTag n ++
              (if breaksOpen pre n then "\n" else "")))
          fun w2 =>
            (w2 ++ (if indentsClose pre n then strings.Repeat I level else "") ++ closeTag n ++
              (if breaksClose Q pre next then "\n" else ""), none) := by
  obtain ⟨ty, da, data, attr, children⟩ := n
  simp only [Node.Type'_mk] at h
  subst h
  rw [printNode]
  simp only [printIndent_builder, stringsBuilder_Write, printAttrs_builder, printChildren,
    Node.children_mk, Node.Data_mk, Node.Attr_mk, openTag, closeTag]
  rw [show (!pre && (prev.isNone || prev.any fun p =>
      p.Type' != NodeType.TextNode || unicode.IsSpace (getLastRune p.Data))) =
      indentsOpen pre prev from rfl]
  rw [show (!pre && !hasSingleTextChild (some (Node.mk NodeType.ElementNode da data attr children)))
      = breaksOpen pre (Node.mk NodeType.ElementNode da data attr children) from rfl]
  rw [show (!pre && (isSpecialContentElement (some (Node.mk NodeType.ElementNode da data attr children)) || !hasSingleTextChild (some (Node.mk NodeType.ElementNode da data attr children))))
      = indentsClose pre (Node.mk NodeType.ElementNode da data attr children) from rfl]
  rw [show (!pre && (next.isNone ||
    (next.any fun m => m.Type' == NodeType.ElementNode) ||
    (next.any fun m => m.Type' == NodeType.TextNode &&
      !Q (getFirstRune m.Data)))) = breaksClose Q pre next from rfl]
  generalize indentsOpen pre prev = c1
  generalize breaksOpen pre (Node.mk NodeType.ElementNode da data attr children) = c2
  generalize indentsClose pre (Node.mk NodeType.ElementNode da data attr children) = c3
  generalize breaksClose Q pre next = c4
  generalize isVoidElement (Node.mk NodeType.ElementNode da data attr children) = c5
  generalize printChildrenLoop Q stringsBuilder I _ none children _ (level + 1) = f
  cases c1 <;> cases c2 <;> cases c5 <;>
    simp only [andThen_ok, if_true, if_false, Bool.not_true, Bool.not_false,
      Bool.false_eq_true, String.append_assoc, String.append_empty, String.empty_append] <;>
    congr 1 <;> funext w2 <;> cases c3 <;> cases c4 <;>
    simp only [andThen_ok, if_true, if_false, Bool.not_true, Bool.not_false,
      Bool.false_eq_true, String.append_assoc, String.append_empty, String.empty_append]


theorem printNode_text_raw (I : String) (parent prev next : Option Node) (n : Node)
    (level : Nat) (w : String) (h : n.Type' = NodeType.TextNode) :
    printNode Q stringsBuilder I parent prev next n true level w =
      (w ++ html.EscapeString n.Data, none) := by
  obtain ⟨ty, da, data, attr, children⟩ := n
  simp only [Node.Type'_mk] at h
  subst h
  rw [printNode]
  simp

theorem printNode_text_builder (I : String) (parent prev next : Option Node) (n : Node)
    (level : Nat) (w : String) (h : n.Type' = NodeType.TextNode)
    (hp : isSpecialContentElement parent = false) :
    printNode Q stringsBuilder I parent prev next n false level w =
      if strings.TrimSpace n.Data = "" then (w, none)
      else
        (w ++ (if indentsText Q parent prev (strings.TrimSpace n.Data) then strings.Repeat I level
            else "") ++
          strings.TrimSpace n.Data ++ (if breaksText parent next n.Data then "\n" else ""),
          none) := by
  obtain ⟨ty, da, data, attr, children⟩ := n
  simp only [Node.Type'_mk] at h
  subst h
  rw [printNode]
  simp only [Node.Data_mk, indentsText, breaksText, hp, collapseWhitespace_TrimSpace,
    printIndent_builder, stringsBuilder_Write]
  by_cases h0 : strings.TrimSpace data = ""
  · simp [h0]
  · simp only [h0, ne_eq, not_false_eq_true, if_true, if_false, Bool.false_eq_true,
      Bool.not_false, Bool.true_and]
    rcases Bool.eq_false_or_eq_true (hasSingleTextChild parent) with h1 | h1 <;>
    rcases Bool.eq_false_or_eq_true
      (prev.isNone || !Q (getFirstRune (strings.TrimSpace data))) with h2 | h2 <;>
    rcases Bool.eq_false_or_eq_true (unicode.IsSpace (getLastRune data) || next.isNone ||
      (next.any fun m => m.Type' == NodeType.ElementNode && !isInlineElement m)) with h3 | h3 <;>
    simp only [h1, h2, h3, andThen_ok, if_true, if_false, Bool.not_true, Bool.not_false,
      Bool.false_eq_true, Bool.true_and, Bool.false_and, String.append_assoc,
      String.append_empty, String.empty_append]

theorem printNode_text_special (I : String) (parent prev next : Option Node) (n : Node)
    (level : Nat) (w : String) (h : n.Type' = NodeType.TextNode)
    (hp : isSpecialContentElement parent = true) :
    printNode Q stringsBuilder I parent prev next n false level w =
      if strings.TrimSpace n.Data = "" then (w, none)
      else
        (w ++ concatAll ((bufio.scanLines (strings.TrimSpace n.Data)).1.map fun t =>
            "\n" ++ strings.Repeat I level ++ t) ++
          (if (bufio.scanLines (strings.TrimSpace n.Data)).2.isNone then "\n" else ""),
          (bufio.scanLines (strings.TrimSpace n.Data)).2) := by
  obtain ⟨ty, da, data, attr, children⟩ := n
  simp only [Node.Type'_mk] at h
  subst h
  rw [printNode]
  simp only [Node.Data_mk, hp, printScanned_builder, stringsBuilder_Write]
  by_cases h0 : strings.TrimSpace data = ""
  · simp [h0]
  · simp only [h0, ne_eq, not_false_eq_true, if_true, if_false, Bool.false_eq_true,
      Bool.not_true, Bool.false_and, andThen_ok]
    rcases Option.eq_none_or_eq_some (bufio.scanLines (strings.TrimSpace data)).2 with
      h1 | ⟨e, h1⟩ <;>
    simp only [h1, andThen_ok, andThen_err, if_true, if_false, String.append_assoc,
      String.append_empty, Option.isNone_none, Option.isNone_some, Bool.false_eq_true]

/-! ## C1: single-text-child compaction -/

theorem printChildrenLoop_nil {σ : Type} (W : Writer σ) (I : String) (parent prev : Option Node)
    (pre : Bool) (level : Nat) (w : σ) :
    printChildrenLoop Q W I parent prev [] pre level w = (w, none) := by
  rw [printChildrenLoop]

theorem printChildrenLoop_cons {σ : Type} (W : Writer σ) (I : String)
    (parent prev : Option Node) (child : Node) (rest : List Node) (pre : Bool) (level : Nat)
    (w : σ) :
    printChildrenLoop Q W I parent prev (child :: rest) pre level w =
      andThen (printNode Q W I parent prev rest.head? child pre level w) fun w =>
        printChildrenLoop Q W I parent (some child) rest pre level w := by
  rw [printChildrenLoop]

theorem hasSingleTextChild_of (n t : Node) (hc : n.children = [t])
    (ht : t.Type' = NodeType.TextNode) : hasSingleTextChild (some n) = true := by
  simp [hasSingleTextChild, hc, ht]

/-- C1 (single-text-child compaction). A non-void element that is not a script or style
element, whose tag is neither `pre` nor `code` and whose only child is a text node `t`,
is rendered outside raw mode, at every level and in every sibling context, as the optional
indentation, the opening tag, the trimmed text of `t`, the closing tag and the optional
line break, with nothing between the tags and the text. -/
theorem single_text_child_compaction (I : String) (parent prev next : Option Node)
    (n t : Node) (level : Nat) (w : String)
    (hn : n.Type' = NodeType.ElementNode) (hvoid : isVoidElement n = false)
    (hspecial : isSpecialContentElement (some n) = false)
    (hpre : n.Data ≠ "pre") (hcode : n.Data ≠ "code")
    (hchildren : n.children = [t]) (ht : t.Type' = NodeType.TextNode) :
    printNode Q stringsBuilder I parent prev next n false level w =
      (w ++ (if indentsOpen false prev then strings.Repeat I level else "") ++ openTag n ++
        strings.TrimSpace t.Data ++ closeTag n ++
        (if breaksClose Q false next then "\n" else ""), none) := by
  have hs := hasSingleTextChild_of n t hchildren ht
  rw [printNode_element_builder I parent prev next n false level w hn]
  have hraw : (false || n.Data == "pre" || n.Data == "code") = false := by
    simp [hpre, hcode]
  simp only [hvoid, Bool.false_eq_true, if_false, hraw, printChildren, hchildren,
    printChildrenLoop_cons, printChildrenLoop_nil, List.head?_nil, breaksOpen, indentsClose,
    hs, hspecial, Bool.not_true, Bool.and_false, Bool.or_false, Bool.not_false,
    String.append_empty]
  rw [printNode_text_builder I (some n) none none t (level + 1) _ ht hspecial]
  by_cases h0 : strings.TrimSpace t.Data = ""
  · simp [h0]
  · simp [h0, indentsText, breaksText, hs]

/-- C1 at the first `<li>` of the test "html elements are indented": the element
`<li class="name"> A </li>`, between two blank text nodes at level 1, is rendered on one
line. -/
theorem single_text_child_compaction_witness :
    printNode unicode.IsPunct stringsBuilder "  " (some olExample) (some (text " ")) (some (text
        " "))
        (element (.Other "li") "li" [⟨"", "class", "name"⟩] [text " A "]) false 1 "" =
      ("  <li class=\"name\">A</li>\n", none) :=
  (single_text_child_compaction "  " (some olExample) (some (text " ")) (some (text " "))
    (element (.Other "li") "li" [⟨"", "class", "name"⟩] [text " A "]) (text " A ") 1 ""
    rfl rfl rfl (by decide) (by decide) rfl rfl).trans (by decide)


/-! ## C2: block nesting -/

theorem printChildren_appends (I : String) (n : Node) (pre : Bool) (level : Nat) :
    Appends (printChildren Q stringsBuilder I n pre level) :=
  printChildrenLoop_appends I (some n) none n.children pre level

/-- Sequencing after a sink transformer that only appends, read off its result on the
empty builder. -/
theorem andThen_appends {f : String → String × Option Error} (hf : Appends f) (w : String)
    (tail : String) :
    andThen (f w) (fun w2 => (w2 ++ tail, none)) =
      (w ++ (f "").1 ++ (if (f "").2.isNone then tail else ""), (f "").2) := by
  rw [hf w]
  rcases Option.eq_none_or_eq_some (f "").2 with h | ⟨e, h⟩ <;>
  simp [h, String.append_assoc]

theorem hasSingleTextChild_of_elements (n : Node)
    (h : ∀ c ∈ n.children, c.Type' = NodeType.ElementNode) :
    hasSingleTextChild (some n) = false := by
  rcases hc : n.children with _ | ⟨c, _ | ⟨d, ds⟩⟩
  · simp [hasSingleTextChild, hc]
  · have := h c (by rw [hc]; exact List.mem_cons_self _ _)
    simp [hasSingleTextChild, hc, this]
  · simp [hasSingleTextChild, hc]

/-- Block nesting, as far as the children are rendered without error. A non-void element
whose tag is neither `pre` nor `code`, whose children are all elements, whose previous
sibling is absent or not a text node and whose next sibling is absent or an element, is
rendered outside raw mode at level `level` as the indentation, the opening tag, a line
break and the renderings of its children in order at level `level + 1` outside raw mode;
the indentation, the closing tag and a line break follow if the children have been rendered
without error, and otherwise the error of the children is returned. -/
theorem block_nesting (I : String) (parent prev next : Option Node) (n : Node) (level : Nat)
    (w : String)
    (hn : n.Type' = NodeType.ElementNode) (hvoid : isVoidElement n = false)
    (hpre : n.Data ≠ "pre") (hcode : n.Data ≠ "code")
    (hchildren : ∀ c ∈ n.children, c.Type' = NodeType.ElementNode)
    (hprev : ∀ p, prev = some p → p.Type' ≠ NodeType.TextNode)
    (hnext : ∀ m, next = some m → m.Type' = NodeType.ElementNode) :
    printNode Q stringsBuilder I parent prev next n false level w =
      (w ++ strings.Repeat I level ++ openTag n ++ "\n" ++
        (printChildren Q stringsBuilder I n false (level + 1) "").1 ++
        (if (printChildren Q stringsBuilder I n false (level + 1) "").2.isNone then
          strings.Repeat I level ++ closeTag n ++ "\n"
        else ""),
        (printChildren Q stringsBuilder I n false (level + 1) "").2) := by
  have hs := hasSingleTextChild_of_elements n hchildren
  have hraw : (false || n.Data == "pre" || n.Data == "code") = false := by
    simp [hpre, hcode]
  have hio : indentsOpen false prev = true := by
    unfold indentsOpen
    cases prev with
    | none => rfl
    | some p => simp [hprev p rfl]
  have hbc : breaksClose Q false next = true := by
    unfold breaksClose
    cases next with
    | none => rfl
    | some m => simp [hnext m rfl]
  rw [printNode_element_builder I parent prev next n false level w hn]
  simp only [hvoid, Bool.false_eq_true, if_false, hraw, hio, hbc, if_true, breaksOpen,
    indentsClose, hs, Bool.not_false, Bool.and_true, Bool.or_true]
  rw [← andThen_appends (printChildren_appends I n false (level + 1))
    (w ++ strings.Repeat I level ++ openTag n ++ "\n")
    (strings.Repeat I level ++ closeTag n ++ "\n")]
  simp only [String.append_assoc]

/-- The childless `<li>` of the test "missing closing tags are inserted", and the document
of the test "HTML5 doctype is preserved" rendered by `Nodes`. -/
theorem block_nesting_example :
    printNode unicode.IsPunct stringsBuilder "  " none none none (element (.Other "li") "li" [] [])
        false 0 "" =
        ("<li>\n</li>\n", none) ∧
      Nodes unicode.IsPunct stringsBuilder "  " [detached documentExample] "" =
        ("<!doctype html>\n<html>\n  <head>\n  </head>\n  <body>\n  </body>\n</html>\n",
          none) :=
  ⟨(block_nesting "  " none none none (element (.Other "li") "li" [] []) 0 "" rfl rfl
      (by decide) (by decide) (fun c hc => absurd hc (List.not_mem_nil c))
      (fun p hp => by cases hp) (fun m hm => by cases hm)).trans (by decide),
    by decide⟩

/-! ## C3: attribute rendering -/

theorem escapeChars_append (u v : List Char) :
    html.escapeChars (u ++ v) = html.escapeChars u ++ html.escapeChars v := by
  induction u with
  | nil => rfl
  | cons c cs ih => simp [html.escapeChars, ih]

theorem escapeChar_no_special (c x : Char) (hx : x ∈ html.escapeChar c) :
    x ≠ Char.ofNat 34 ∧ x ≠ Char.ofNat 39 ∧ x ≠ '<' ∧ x ≠ '>' := by
  unfold html.escapeChar at hx
  split_ifs at hx with h1 h2 h3 h4 h5 h6
  · have : x ∈ ['&', 'a', 'm', 'p', ';'] := hx
    simp only [List.mem_cons, List.mem_singleton, List.not_mem_nil, or_false] at this
    rcases this with h | h | h | h | h <;> subst h <;> decide
  · have : x ∈ ['&', '#', '3', '9', ';'] := hx
    simp only [List.mem_cons, List.mem_singleton, List.not_mem_nil, or_false] at this
    rcases this with h | h | h | h | h <;> subst h <;> decide
  · have : x ∈ ['&', 'l', 't', ';'] := hx
    simp only [List.mem_cons, List.mem_singleton, List.not_mem_nil, or_false] at this
    rcases this with h | h | h | h <;> subst h <;> decide
  · have : x ∈ ['&', 'g', 't', ';'] := hx
    simp only [List.mem_cons, List.mem_singleton, List.not_mem_nil, or_false] at this
    rcases this with h | h | h | h <;> subst h <;> decide
  · have : x ∈ ['&', '#', '3', '4', ';'] := hx
    simp only [List.mem_cons, List.mem_singleton, List.not_mem_nil, or_false] at this
    rcases this with h | h | h | h | h <;> subst h <;> decide
  · have : x ∈ ['&', '#', '1', '3', ';'] := hx
    simp only [List.mem_cons, List.mem_singleton, List.not_mem_nil, or_false] at this
    rcases this with h | h | h | h | h <;> subst h <;> decide
  · simp only [List.mem_singleton] at hx
    subst hx
    exact ⟨h5, h2, h3, h4⟩

theorem escapeChars_no_special (v : List Char) (x : Char) (hx : x ∈ html.escapeChars v) :
    x ≠ Char.ofNat 34 ∧ x ≠ Char.ofNat 39 ∧ x ≠ '<' ∧ x ≠ '>' := by
  induction v with
  | nil => simp [html.escapeChars] at hx
  | cons c cs ih =>
    simp only [html.escapeChars, List.mem_append] at hx
    rcases hx with h | h
    · exact escapeChar_no_special c x h
    · exact ih h

/-- The rendering of an element on a builder, with the rendering of its children read off
the empty builder. -/
theorem printNode_element_explicit (I : String) (parent prev next : Option Node) (n : Node)
    (pre : Bool) (level : Nat) (w : String) (hn : n.Type' = NodeType.ElementNode) :
    printNode Q stringsBuilder I parent prev next n pre level w =
      if isVoidElement n then
        (w ++ (if indentsOpen pre prev then strings.Repeat I level else "") ++ openTag n ++
          (if breaksOpen pre n then "\n" else ""), none)
      else
        (w ++ (if indentsOpen pre prev then strings.Repeat I level else "") ++ openTag n ++
          (if breaksOpen pre n then "\n" else "") ++
          (printChildren Q stringsBuilder I n (pre || n.Data == "pre" || n.Data == "code")
            (level + 1) "").1 ++
          (if (printChildren Q stringsBuilder I n (pre || n.Data == "pre" || n.Data == "code")
              (level + 1) "").2.isNone then
            (if indentsClose pre n then strings.Repeat I level else "") ++ closeTag n ++
              (if breaksClose Q pre next then "\n" else "")
          else ""),
          (printChildren Q stringsBuilder I n (pre || n.Data == "pre" || n.Data == "code")
            (level + 1) "").2) := by
  rw [printNode_element_builder I parent prev next n pre level w hn]
  by_cases hv : isVoidElement n = true
  · simp only [hv, if_true]
  · simp only [hv, Bool.false_eq_true, if_false]
    rw [← andThen_appends (printChildren_appends I n _ (level + 1))]
    simp only [String.append_assoc]

theorem printNode_element_opening (I : String) (parent prev next : Option Node) (n : Node)
    (pre : Bool) (level : Nat) (w : String) (hn : n.Type' = NodeType.ElementNode) :
    ∃ rest, (printNode Q stringsBuilder I parent prev next n pre level w).1 =
      w ++ (if indentsOpen pre prev then strings.Repeat I level else "") ++ openTag n ++
        rest := by
  rw [printNode_element_explicit I parent prev next n pre level w hn]
  by_cases hv : isVoidElement n = true
  · simp only [hv, if_true]
    exact ⟨_, rfl⟩
  · simp only [hv, Bool.false_eq_true, if_false, String.append_assoc]
    exact ⟨_, rfl⟩


theorem EscapeString_append (u v : String) :
    html.EscapeString (u ++ v) = html.EscapeString u ++ html.EscapeString v := by
  apply String.ext
  simp [html.EscapeString, escapeChars_append]

/-- C3 (attribute rendering). In every mode, at every level and in every context, an element
is rendered on a builder as the optional indentation followed by `<`, the tag, for each
attribute in the original order (duplicates kept) a space, the key, `="`, the escaped value
and `"`, then `>`, then the rest. Escaping works character by character: `&` becomes
`&amp;`, and `<`, `>`, the double quote and the apostrophe become entities, so an escaped
value holds no raw double quote. The attribute loop alone writes exactly the attribute
texts. -/
theorem attribute_rendering (I : String) (parent prev next : Option Node) (n : Node)
    (pre : Bool) (level : Nat) (w : String) (hn : n.Type' = NodeType.ElementNode) :
    (∃ rest, (printNode Q stringsBuilder I parent prev next n pre level w).1 =
      w ++ (if indentsOpen pre prev then strings.Repeat I level else "") ++
        ("<" ++ n.Data ++
          concatAll (n.Attr.map fun a =>
            " " ++ a.Key ++ "=\"" ++ html.EscapeString a.Val ++ "\"") ++ ">") ++ rest) ∧
    (∀ w2, printAttrs stringsBuilder n.Attr w2 =
      (w2 ++ concatAll (n.Attr.map fun a =>
        " " ++ a.Key ++ "=\"" ++ html.EscapeString a.Val ++ "\""), none)) ∧
    (∀ u v, html.EscapeString (u ++ v) = html.EscapeString u ++ html.EscapeString v) ∧
    html.EscapeString "&" = "&amp;" ∧
    html.EscapeString "<" = "&lt;" ∧
    html.EscapeString ">" = "&gt;" ∧
    html.EscapeString (String.singleton (Char.ofNat 34)) = "&#34;" ∧
    html.EscapeString (String.singleton (Char.ofNat 39)) = "&#39;" ∧
    html.EscapeString "&&" = "&amp;&amp;" ∧
    (∀ v x, x ∈ (html.EscapeString v).data →
      x ≠ Char.ofNat 34 ∧ x ≠ Char.ofNat 39 ∧ x ≠ '<' ∧ x ≠ '>') :=
  ⟨printNode_element_opening I parent prev next n pre level w hn,
    fun w2 => printAttrs_builder n.Attr w2, EscapeString_append,
    by decide, by decide, by decide, by decide, by decide, by decide,
    fun v x hx => escapeChars_no_special v.data x hx⟩

/-- C3 at the element `<li style="&amp;&#38;"> A </li>` of the test "html attribute escaping
is normalized", whose parsed attribute value is `&&`. -/
theorem attribute_rendering_witness :
    (∃ rest, (printNode unicode.IsPunct stringsBuilder "  " (some olExample) (some (text " "))
        (some (text " ")) (element (.Other "li") "li" [⟨"", "style", "&&"⟩] [text " A "])
        false 1 "").1 = "  <li style=\"&amp;&amp;\">" ++ rest) ∧
      printNode unicode.IsPunct stringsBuilder "  " (some olExample) (some (text " ")) (some (text
          " "))
        (element (.Other "li") "li" [⟨"", "style", "&&"⟩] [text " A "]) false 1 "" =
        ("  <li style=\"&amp;&amp;\">A</li>\n", none) :=
  ⟨(attribute_rendering "  " (some olExample) (some (text " ")) (some (text " "))
      (element (.Other "li") "li" [⟨"", "style", "&&"⟩] [text " A "]) false 1 "" rfl).1,
    by decide⟩


/-! ## C4: punctuation attachment -/

theorem isSpaceCode_not_punct (n : Nat) (h : unicode.isSpaceCode n = true) :
    unicode.isPunctCode n = false := by
  unfold unicode.isSpaceCode at h
  simp only [Bool.or_eq_true, beq_iff_eq, Bool.and_eq_true, decide_eq_true_eq] at h
  rcases h with ((((((((((((((h | h) | h) | h) | h) | h) | h) | h) | h) | h) | h) | h) | h) | h) | h)
  all_goals first
    | (subst h; decide)
    | (obtain ⟨h1, h2⟩ := h; interval_cases n <;> decide)

theorem punct_not_space (c : Char) (h : unicode.IsPunct c = true) :
    unicode.IsSpace c = false := by
  cases hs : unicode.IsSpace c with
  | false => rfl
  | true =>
    have := isSpaceCode_not_punct c.toNat hs
    unfold unicode.IsPunct at h
    rw [this] at h
    exact absurd h (by decide)

theorem getFirstRune_of_data (s : String) (c : Char) (cs : List Char) (h : s.data = c :: cs) :
    getFirstRune s = c := by
  simp [getFirstRune, h]

theorem getFirstRune_of_head? (s : String) (c : Char) (h : s.data.head? = some c) :
    getFirstRune s = c := by
  unfold getFirstRune
  cases hs : s.data with
  | nil => rw [hs] at h; cases h
  | cons x xs => rw [hs] at h; simpa using h

theorem TrimSpace_head_of_data (s : String) (c : Char) (cs : List Char) (h : s.data = c :: cs)
    (hc : unicode.IsSpace c = false) : (strings.TrimSpace s).data.head? = some c := by
  have : s = String.mk (c :: cs) := String.ext h
  rw [this]
  exact TrimSpace_of_not_space c cs hc

theorem ne_empty_of_head? (s : String) (c : Char) (h : s.data.head? = some c) : s ≠ "" := by
  intro h0
  rw [h0] at h
  cases h

theorem hasSingleTextChild_of_two (parent : Option Node)
    (h : ∀ p, parent = some p → 2 ≤ p.children.length) : hasSingleTextChild parent = false := by
  cases parent with
  | none => rfl
  | some p =>
    have := h p rfl
    rcases hc : p.children with _ | ⟨c, _ | ⟨d, ds⟩⟩
    · simp [hasSingleTextChild, hc]
    · rw [hc] at this; simp at this
    · simp [hasSingleTextChild, hc]


theorem breaksClose_punct (T : Node) (c : Char) (cs : List Char)
    (hT : T.Type' = NodeType.TextNode) (hdata : T.Data.data = c :: cs)
    (hc : Q c = true) : breaksClose Q false (some T) = false := by
  simp [breaksClose, hT, getFirstRune_of_data T.Data c cs hdata, hc]

/-- Punctuation attachment, as far as the children are rendered without error, for every
table of punctuation that holds no white space. Outside raw mode, let a non-void element `E`
be followed by a text node `T` whose data begins with a punctuation character `c`, under a
parent that is not a script or style element. If the children of `E` have been rendered
without error, the rendering of `E` ends with its closing tag and no line break, and
otherwise it returns their error; the rendering of `T` is its trimmed text, which begins
with `c`, without indentation; and in the loop over the siblings the closing tag of `E`, if
it is written, is immediately followed by the text of `T`. -/
theorem punctuation_attachment (I : String) (parent prev : Option Node) (E T : Node)
    (rest : List Node) (level : Nat) (w : String) (c : Char) (cs : List Char)
    (hE : E.Type' = NodeType.ElementNode) (hvoid : isVoidElement E = false)
    (hT : T.Type' = NodeType.TextNode) (hdata : T.Data.data = c :: cs)
    (hc : Q c = true) (hQ : ∀ r, Q r = true → unicode.IsSpace r = false)
    (hparent : isSpecialContentElement parent = false)
    (hsiblings : ∀ p, parent = some p → 2 ≤ p.children.length) :
    printNode Q stringsBuilder I parent prev (some T) E false level w =
        (w ++ (if indentsOpen false prev then strings.Repeat I level else "") ++ openTag E ++
          (if breaksOpen false E then "\n" else "") ++
          (printChildren Q stringsBuilder I E (E.Data == "pre" || E.Data == "code")
            (level + 1) "").1 ++
          (if (printChildren Q stringsBuilder I E (E.Data == "pre" || E.Data == "code")
              (level + 1) "").2.isNone then
            (if indentsClose false E then strings.Repeat I level else "") ++ closeTag E
          else ""),
          (printChildren Q stringsBuilder I E (E.Data == "pre" || E.Data == "code")
            (level + 1) "").2) ∧
      (∀ w2, printNode Q stringsBuilder I parent (some E) rest.head? T false level w2 =
        (w2 ++ strings.TrimSpace T.Data ++
          (if breaksText parent rest.head? T.Data then "\n" else ""), none)) ∧
      (strings.TrimSpace T.Data).data.head? = some c ∧
      ((printChildren Q stringsBuilder I E (E.Data == "pre" || E.Data == "code")
          (level + 1) "").2 = none →
        printChildrenLoop Q stringsBuilder I parent prev (E :: T :: rest) false level w =
          printChildrenLoop Q stringsBuilder I parent (some T) rest false level
            (w ++ (if indentsOpen false prev then strings.Repeat I level else "") ++
              openTag E ++ (if breaksOpen false E then "\n" else "") ++
              (printChildren Q stringsBuilder I E (E.Data == "pre" || E.Data == "code")
                (level + 1) "").1 ++
              (if indentsClose false E then strings.Repeat I level else "") ++ closeTag E ++
              strings.TrimSpace T.Data ++
              (if breaksText parent rest.head? T.Data then "\n" else ""))) := by
  have hspace := hQ c hc
  have hhead := TrimSpace_head_of_data T.Data c cs hdata hspace
  have hne := ne_empty_of_head? _ c hhead
  have hsingle := hasSingleTextChild_of_two parent hsiblings
  have hEq := printNode_element_explicit (Q := Q) I parent prev (some T) E false level w hE
  simp only [hvoid, Bool.false_eq_true, if_false, Bool.false_or,
    breaksClose_punct T c cs hT hdata hc, String.append_empty] at hEq
  have hTq : ∀ w2, printNode Q stringsBuilder I parent (some E) rest.head? T false level w2 =
      (w2 ++ strings.TrimSpace T.Data ++
        (if breaksText parent rest.head? T.Data then "\n" else ""), none) := by
    intro w2
    rw [printNode_text_builder I parent (some E) rest.head? T level w2 hT hparent]
    simp [hne, indentsText, hparent, hsingle, getFirstRune_of_head? _ c hhead, hc]
  refine ⟨hEq, hTq, hhead, ?_⟩
  intro hok
  simp only [printChildrenLoop_cons, List.head?_cons, hEq, hok, Option.isNone_none, if_true,
    andThen_ok, hTq, String.append_assoc]

/-- The test "phrasing content element children are kept on the same line, including
punctuation": the children of the `<li>` are rendered on one line, the period right after
`</a>`; and the test "spaces are not added around elements ending with punctuation". -/
theorem punctuation_attachment_example :
    printChildrenLoop unicode.IsPunct stringsBuilder "  "
        (some (element (.Other "li") "li" [] [linkExample, text "."])) none
        [linkExample, text "."] false 2 "" =
        ("    <a href=\"http://example.com\">Test</a>.\n", none) ∧
      Nodes unicode.IsPunct stringsBuilder "  " [detached ulExample] "" =
        ("<ul>\n  <li>\n    <a href=\"http://example.com\">Test</a>.\n  </li>\n</ul>\n", none) ∧
      Nodes unicode.IsPunct stringsBuilder "  " [detached timeExample] "" =
        ("<div>\n  <time>19:00</time>–<time>20:00</time>\n</div>\n", none) :=
  ⟨((punctuation_attachment "  "
      (some (element (.Other "li") "li" [] [linkExample, text "."])) none
      linkExample (text ".") [] 2 "" '.' [] rfl rfl rfl rfl (by decide) punct_not_space rfl
      (fun p hp => by cases hp; decide)).2.2.2 (by decide)).trans (by decide),
    by decide, by decide⟩

/-! ## C7: space after text -/

theorem andThen_fst_appends (r : String × Option Error) (k : String → String × Option Error)
    (hk : Appends k) : ∃ tail, (andThen r k).1 = r.1 ++ tail := by
  obtain ⟨w, e⟩ := r
  cases e with
  | none =>
    refine ⟨(k "").1, ?_⟩
    simp only [andThen_ok]
    rw [hk w]
  | some e => exact ⟨"", by simp⟩

theorem indentsOpen_after_space (T : Node)
    (hspace : unicode.IsSpace (getLastRune T.Data) = true) :
    indentsOpen false (some T) = true := by
  simp [indentsOpen, hspace]

/-- C7 (space after text is preserved as a line break). Outside raw mode at level `level`,
let a text node `T` with non-empty trimmed data, whose data ends with white space, be
followed by an element `E`, under a parent that is not a script or style element and has at
least two children. The rendering of `T` ends with a line break, the rendering of `E` begins
with `level` indent units and its opening tag, and so in the loop over the siblings the
opening tag of `E` stands on the new line after exactly `level` indent units. -/
theorem space_after_text_preserved (I : String) (parent prev : Option Node) (T E : Node)
    (rest : List Node) (level : Nat) (w : String)
    (hT : T.Type' = NodeType.TextNode) (hne : strings.TrimSpace T.Data ≠ "")
    (hspace : unicode.IsSpace (getLastRune T.Data) = true)
    (hparent : isSpecialContentElement parent = false)
    (hsiblings : ∀ p, parent = some p → 2 ≤ p.children.length)
    (hE : E.Type' = NodeType.ElementNode) :
    printNode Q stringsBuilder I parent prev (some E) T false level w =
        (w ++ (if indentsText Q parent prev (strings.TrimSpace T.Data) then strings.Repeat I level
            else "") ++ strings.TrimSpace T.Data ++ "\n", none) ∧
      (∀ w2, ∃ tail,
        (printNode Q stringsBuilder I parent (some T) rest.head? E false level w2).1 =
        w2 ++ strings.Repeat I level ++ openTag E ++ tail) ∧
      (∃ tail,
        (printChildrenLoop Q stringsBuilder I parent prev (T :: E :: rest) false level w).1 =
        w ++ (if indentsText Q parent prev (strings.TrimSpace T.Data) then strings.Repeat I level
            else "") ++ strings.TrimSpace T.Data ++ "\n" ++ strings.Repeat I level ++
          openTag E ++ tail) := by
  have hsingle := hasSingleTextChild_of_two parent hsiblings
  have hTq : printNode Q stringsBuilder I parent prev (some E) T false level w =
      (w ++ (if indentsText Q parent prev (strings.TrimSpace T.Data) then strings.Repeat I level
          else "") ++ strings.TrimSpace T.Data ++ "\n", none) := by
    rw [printNode_text_builder I parent prev (some E) T level w hT hparent]
    simp [hne, breaksText, hsingle, hspace]
  have hEq : ∀ w2, ∃ tail,
      (printNode Q stringsBuilder I parent (some T) rest.head? E false level w2).1 =
        w2 ++ strings.Repeat I level ++ openTag E ++ tail := by
    intro w2
    obtain ⟨tail, ht⟩ := printNode_element_opening I parent (some T) rest.head? E false level w2 hE
    rw [indentsOpen_after_space T hspace] at ht
    exact ⟨tail, by simpa using ht⟩
  refine ⟨hTq, hEq, ?_⟩
  simp only [printChildrenLoop_cons, List.head?_cons, hTq, andThen_ok]
  obtain ⟨t1, h1⟩ := andThen_fst_appends
    (printNode Q stringsBuilder I parent (some T) rest.head? E false level
      (w ++ (if indentsText Q parent prev (strings.TrimSpace T.Data) then strings.Repeat I level
          else "") ++ strings.TrimSpace T.Data ++ "\n"))
    (fun w3 => printChildrenLoop Q stringsBuilder I parent (some E) rest false level w3)
    (printChildrenLoop_appends I parent (some E) rest false level)
  obtain ⟨t2, h2⟩ := hEq (w ++ (if indentsText Q parent prev (strings.TrimSpace T.Data) then
    strings.Repeat I level else "") ++ strings.TrimSpace T.Data ++ "\n")
  refine ⟨t2 ++ t1, ?_⟩
  rw [h1, h2]
  simp only [String.append_assoc]

/-- C7 at the test "space after text node with punctuation is preserved": the text `. `
between the two links ends its line, and the second link starts the next line after one
indent unit. -/
theorem space_after_text_preserved_witness :
    printNode unicode.IsPunct stringsBuilder "  " (some paragraphExample)
        (some (element .A "a" [⟨"", "href", "https://example.com"⟩] [text "Link"]))
        (some (element .A "a" [⟨"", "href", "https://example.org"⟩] [text "Another"]))
        (text ". ") false 1 "" = (".\n", none) ∧
      Nodes unicode.IsPunct stringsBuilder "  " [detached paragraphExample] "" =
        ("<p>\n  <a href=\"https://example.com\">Link</a>.\n" ++
          "  <a href=\"https://example.org\">Another</a>\n</p>\n", none) :=
  ⟨((space_after_text_preserved "  " (some paragraphExample)
      (some (element .A "a" [⟨"", "href", "https://example.com"⟩] [text "Link"]))
      (text ". ") (element .A "a" [⟨"", "href", "https://example.org"⟩] [text "Another"])
      [] 1 "" rfl (by decide) (by decide) rfl (fun p hp => by cases hp; decide) rfl).1).trans
      (by decide),
    by decide⟩

/-! ## C6: void elements -/

theorem isVoidElement_iff (n : Node) :
    isVoidElement n = true ↔
      (n.DataAtom = .Area ∨ n.DataAtom = .Base ∨ n.DataAtom = .Br ∨ n.DataAtom = .Col ∨
        n.DataAtom = .Command ∨ n.DataAtom = .Embed ∨ n.DataAtom = .Hr ∨ n.DataAtom = .Img ∨
        n.DataAtom = .Input ∨ n.DataAtom = .Keygen ∨ n.DataAtom = .Link ∨
        n.DataAtom = .Meta ∨ n.DataAtom = .Param ∨ n.DataAtom = .Source ∨
        n.DataAtom = .Track ∨ n.DataAtom = .Wbr) := by
  unfold isVoidElement
  cases n.DataAtom <;> simp

/-- A `<br>` element that has been given one text child, a tree that the parser does not
build, is rendered outside raw mode as `<br>` alone, without the line break: the break
after the opening tag is decided before the element is tested for being void. -/
theorem void_element_text_child :
    isVoidElement brWithText = true ∧
      printNode unicode.IsPunct stringsBuilder "  " none none none brWithText false 0 "" = ("<br>",
          none) ∧
      printNode unicode.IsPunct stringsBuilder "  " none none none brWithText false 0 "" ≠
          ("<br>\n", none) := by
  decide

/-- The rendering of an element, by whether it is void. The void elements are those with one of
the sixteen atoms area, base, br, col, command, embed, hr, img, input, keygen, link, meta,
param, source, track and wbr. In every mode, level and sibling context a void element is
rendered as the optional indentation, the opening tag and, outside raw mode unless its only
child is a text node, one line break: no closing tag and no child is written. A non-void element
is rendered with its closing tag after the renderings of its children if these have been written
without error, and otherwise returns their error without a closing tag. -/
theorem void_elements_rendering (I : String) (parent prev next : Option Node) (n : Node)
    (pre : Bool) (level : Nat) (w : String) (hn : n.Type' = NodeType.ElementNode) :
    (isVoidElement n = true ↔
      (n.DataAtom = .Area ∨ n.DataAtom = .Base ∨ n.DataAtom = .Br ∨ n.DataAtom = .Col ∨
        n.DataAtom = .Command ∨ n.DataAtom = .Embed ∨ n.DataAtom = .Hr ∨ n.DataAtom = .Img ∨
        n.DataAtom = .Input ∨ n.DataAtom = .Keygen ∨ n.DataAtom = .Link ∨
        n.DataAtom = .Meta ∨ n.DataAtom = .Param ∨ n.DataAtom = .Source ∨
        n.DataAtom = .Track ∨ n.DataAtom = .Wbr)) ∧
      (isVoidElement n = true →
        printNode Q stringsBuilder I parent prev next n pre level w =
          (w ++ (if indentsOpen pre prev then strings.Repeat I level else "") ++ openTag n ++
            (if !pre && !hasSingleTextChild (some n) then "\n" else ""), none)) ∧
      (isVoidElement n = false →
        printNode Q stringsBuilder I parent prev next n pre level w =
          (w ++ (if indentsOpen pre prev then strings.Repeat I level else "") ++ openTag n ++
            (if !pre && !hasSingleTextChild (some n) then "\n" else "") ++
            (printChildren Q stringsBuilder I n (pre || n.Data == "pre" || n.Data == "code")
              (level + 1) "").1 ++
            (if (printChildren Q stringsBuilder I n (pre || n.Data == "pre" || n.Data == "code")
                (level + 1) "").2.isNone then
              (if indentsClose pre n then strings.Repeat I level else "") ++ closeTag n ++
                (if breaksClose Q pre next then "\n" else "")
            else ""),
            (printChildren Q stringsBuilder I n (pre || n.Data == "pre" || n.Data == "code")
              (level + 1) "").2)) := by
  refine ⟨isVoidElement_iff n, ?_, ?_⟩
  · intro hv
    rw [printNode_element_explicit I parent prev next n pre level w hn]
    simp only [hv, if_true, breaksOpen]
  · intro hv
    rw [printNode_element_explicit I parent prev next n pre level w hn]
    simp only [hv, Bool.false_eq_true, if_false, breaksOpen]

/-- A `<br>` without children after a text node that ends with a space, at level 1:
outside raw mode it is rendered as the indentation, `<br>` and a line break; in raw mode as
`<br>` alone. -/
theorem void_elements_rendering_example :
    printNode unicode.IsPunct stringsBuilder "  " none (some (text "a ")) none (element .Br "br" []
        []) false 1
        "" = ("  <br>\n", none) ∧
      printNode unicode.IsPunct stringsBuilder "  " none (some (text "a ")) none (element .Br "br"
          [] []) true 1
        "" = ("<br>", none) :=
  ⟨((void_elements_rendering "  " none (some (text "a ")) none (element .Br "br" [] []) false 1
      "" rfl).2.1 rfl).trans (by decide),
    ((void_elements_rendering "  " none (some (text "a ")) none (element .Br "br" [] []) true 1
      "" rfl).2.1 rfl).trans (by decide)⟩

/-! ## C8 and C9: the text normaliser -/

/-- C8, counterexample. On `a  b` (two spaces inside) and on `a\nb` the normaliser returns
its argument: the run of two spaces and the line break stay, while the specified result is
`a b`. -/
theorem collapseWhitespace_counterexample :
    strings.TrimSpace "a  b" ≠ "" ∧
      collapseWhitespace "a  b" = "a  b" ∧
      collapseSpec "a  b" = "a b" ∧
      hasAdjacentSpaces (collapseWhitespace "a  b").data = true ∧
      collapseWhitespace "a\nb" = "a\nb" ∧
      '\n' ∈ (collapseWhitespace "a\nb").data := by
  decide

theorem ne_empty_of_TrimSpace_ne (s : String) (h : strings.TrimSpace s ≠ "") : s ≠ "" := by
  intro h0
  apply h
  rw [h0]
  decide

theorem dropWhile_append_all {α : Type} (p : α → Bool) (a t : List α)
    (ha : ∀ x ∈ a, p x = true) : (a ++ t).dropWhile p = t.dropWhile p := by
  induction a with
  | nil => rfl
  | cons x xs ih =>
    have hx := ha x (List.mem_cons_self _ _)
    simp only [List.cons_append, List.dropWhile_cons, hx, if_true]
    exact ih (fun y hy => ha y (List.mem_cons_of_mem _ hy))

theorem rdropWhile_append_all {α : Type} (p : α → Bool) (t b : List α)
    (hb : ∀ x ∈ b, p x = true) : (t ++ b).rdropWhile p = t.rdropWhile p := by
  unfold List.rdropWhile
  rw [List.reverse_append, dropWhile_append_all p b.reverse t.reverse
    (fun x hx => hb x (List.mem_reverse.mp hx))]

theorem TrimSpace_pad (a b : List Char) (s : String) (ha : ∀ x ∈ a, unicode.IsSpace x = true)
    (hb : ∀ x ∈ b, unicode.IsSpace x = true) (h : strings.TrimSpace s ≠ "") :
    strings.TrimSpace (String.mk a ++ strings.TrimSpace s ++ String.mk b) =
      strings.TrimSpace s := by
  apply String.ext
  rw [TrimSpace_data]
  have hd : (String.mk a ++ strings.TrimSpace s ++ String.mk b).data =
      a ++ ((strings.TrimSpace s).data ++ b) := by
    simp [String.data_append]
  rw [hd, dropWhile_append_all _ a _ ha]
  have h1 : ((strings.TrimSpace s).data ++ b).dropWhile unicode.IsSpace =
      (strings.TrimSpace s).data ++ b := by
    cases ht : (strings.TrimSpace s).data with
    | nil => exact absurd (String.ext ht) h
    | cons c cs =>
      have := trim_head_not_space s c (by rw [ht]; rfl)
      simp [List.dropWhile_cons, this]
  rw [h1, rdropWhile_append_all _ _ b hb, TrimSpace_data, List.rdropWhile_idempotent]

/-- C8, amended (text normaliser). For every string whose trimmed form is not empty,
`collapseWhitespace` returns one space if the string begins with white space, then the
trimmed string unchanged (runs of white space and line breaks inside it are kept), then one
space if the string ends with white space; trimming the result gives the trimmed string
back. -/
theorem collapseWhitespace_amended (s : String) (h : strings.TrimSpace s ≠ "") :
    collapseWhitespace s =
        (if unicode.IsSpace (getFirstRune s) then " " else "") ++ strings.TrimSpace s ++
          (if unicode.IsSpace (getLastRune s) then " " else "") ∧
      strings.TrimSpace (collapseWhitespace s) = strings.TrimSpace s := by
  have hs := ne_empty_of_TrimSpace_ne s h
  have h1 : collapseWhitespace s =
      (if unicode.IsSpace (getFirstRune s) then " " else "") ++ strings.TrimSpace s ++
        (if unicode.IsSpace (getLastRune s) then " " else "") := by
    unfold collapseWhitespace
    simp only [hs, if_false]
    cases unicode.IsSpace (getFirstRune s) <;> cases unicode.IsSpace (getLastRune s) <;> simp
  refine ⟨h1, ?_⟩
  rw [h1]
  have hsp : ∀ x ∈ [' '], unicode.IsSpace x = true := by decide
  have hnil : ∀ x ∈ ([] : List Char), unicode.IsSpace x = true := by simp
  cases unicode.IsSpace (getFirstRune s) <;> cases unicode.IsSpace (getLastRune s)
  · exact TrimSpace_pad [] [] s hnil hnil h
  · exact TrimSpace_pad [] [' '] s hnil hsp h
  · exact TrimSpace_pad [' '] [] s hsp hnil h
  · exact TrimSpace_pad [' '] [' '] s hsp hsp h

/-- C8 at ` a  b\n`: one space, the trimmed text with its two inner spaces, one space. -/
theorem collapseWhitespace_amended_witness :
    collapseWhitespace " a  b\n" = " a  b " ∧
      strings.TrimSpace (collapseWhitespace " a  b\n") = "a  b" :=
  ⟨(collapseWhitespace_amended " a  b\n" (by decide)).1.trans (by decide),
    (collapseWhitespace_amended " a  b\n" (by decide)).2.trans (by decide)⟩

/-- C9, counterexample. A string of one space is empty after trimming, and the normaliser
returns two spaces for it. -/
theorem collapseWhitespace_blank_counterexample :
    strings.TrimSpace " " = "" ∧ collapseWhitespace " " = "  " ∧
      collapseWhitespace " " ≠ "" := by
  decide

theorem blank_first_last (s : String) (h : strings.TrimSpace s = "") (hs : s ≠ "") :
    unicode.IsSpace (getFirstRune s) = true ∧ unicode.IsSpace (getLastRune s) = true := by
  have hall := (TrimSpace_eq_empty_iff s).mp h
  have hne : s.data ≠ [] := fun h0 => hs (String.ext h0)
  constructor
  · unfold getFirstRune
    cases hd : s.data with
    | nil => exact absurd hd hne
    | cons c cs => exact hall c (by rw [hd]; exact List.mem_cons_self _ _)
  · unfold getLastRune
    rw [List.getLast?_eq_getLast _ hne]
    exact hall _ (List.getLast_mem hne)

/-- C9, amended. For a string that is empty after trimming, `collapseWhitespace` returns
the empty string when the string itself is empty, and a string of two spaces when it is a
non-empty run of white space. -/
theorem collapseWhitespace_blank_amended (s : String) (h : strings.TrimSpace s = "") :
    collapseWhitespace s = if s = "" then "" else "  " := by
  by_cases hs : s = ""
  · simp [hs, collapseWhitespace]
  · obtain ⟨h1, h2⟩ := blank_first_last s h hs
    simp only [collapseWhitespace, hs, if_false, h1, h2, h, Bool.and_self, if_true]
    decide

/-- C9 at the blank string of a space and a line break, and at the empty string. -/
theorem collapseWhitespace_blank_amended_witness :
    collapseWhitespace " \n" = "  " ∧ collapseWhitespace "" = "" :=
  ⟨(collapseWhitespace_blank_amended " \n" (by decide)).trans (by decide),
    (collapseWhitespace_blank_amended "" (by decide)).trans (by decide)⟩

/-! ## C5: script and style content -/

theorem scan_of_fit (ls : List (List Char))
    (h : ∀ l ∈ ls, utf8.byteLen l < bufio.MaxScanTokenSize) :
    bufio.scan ls = (ls.map fun l => String.mk (bufio.dropCR l), none) := by
  induction ls with
  | nil => rfl
  | cons l ls ih =>
    have hl := h l (List.mem_cons_self _ _)
    have ih2 := ih (fun x hx => h x (List.mem_cons_of_mem _ hx))
    simp only [bufio.scan, Nat.not_le.mpr hl, if_false, ih2, List.map_cons]

theorem special_not_void (n : Node) (h : isSpecialContentElement (some n) = true) :
    isVoidElement n = false := by
  unfold isSpecialContentElement at h
  unfold isVoidElement
  cases hd : n.DataAtom <;> simp [hd] at h ⊢

/-- Raw-content reindentation below the limit of the scanner. A script or style element whose
tag is neither `pre` nor `code` and whose only child is a text node with non-empty trimmed data,
every line of which is shorter than 65536 bytes, is rendered outside raw mode at level `level`
as the optional indentation, the opening tag, then for each line of the trimmed data (split at
line feeds, one trailing carriage return removed) a line break, `level + 1` indent units and the
line as it is, then one line break, `level` indent units, the closing tag and the optional line
break; the rendering does not fail. -/
theorem raw_content_reindentation_short_lines (I : String) (parent prev next : Option Node)
    (n t : Node) (level : Nat) (w : String)
    (hn : n.Type' = NodeType.ElementNode)
    (hspecial : isSpecialContentElement (some n) = true)
    (hpre : n.Data ≠ "pre") (hcode : n.Data ≠ "code")
    (hchildren : n.children = [t]) (ht : t.Type' = NodeType.TextNode)
    (hne : strings.TrimSpace t.Data ≠ "")
    (hfit : ∀ l ∈ bufio.rawLines (strings.TrimSpace t.Data).data,
      utf8.byteLen l < bufio.MaxScanTokenSize) :
    printNode Q stringsBuilder I parent prev next n false level w =
      (w ++ (if indentsOpen false prev then strings.Repeat I level else "") ++ openTag n ++
        concatAll ((bufio.rawLines (strings.TrimSpace t.Data).data).map fun l =>
          "\n" ++ strings.Repeat I (level + 1) ++ String.mk (bufio.dropCR l)) ++
        "\n" ++ strings.Repeat I level ++ closeTag n ++
        (if breaksClose Q false next then "\n" else ""), none) := by
  have hs := hasSingleTextChild_of n t hchildren ht
  have hraw : (false || n.Data == "pre" || n.Data == "code") = false := by
    simp [hpre, hcode]
  have hscan := scan_of_fit _ hfit
  rw [printNode_element_builder I parent prev next n false level w hn]
  simp only [special_not_void n hspecial, Bool.false_eq_true, if_false, hraw, printChildren,
    hchildren, printChildrenLoop_cons, printChildrenLoop_nil, List.head?_nil, breaksOpen,
    indentsClose, hs, hspecial, Bool.not_true, Bool.and_false, Bool.or_true, Bool.not_false,
    Bool.true_and, Bool.and_true, if_true, String.append_empty]
  rw [printNode_text_special I (some n) none none t (level + 1) _ ht hspecial]
  simp only [hne, if_false, bufio.scanLines, hscan, Option.isNone_none, if_true, andThen_ok,
    List.map_map, String.append_assoc]
  rfl

/-- The test "style content is indented consistently". -/
theorem raw_content_reindentation_example :
    printNode unicode.IsPunct stringsBuilder "  " none none none
        (element .Style "style" [] [text "\nbody \x7b\n  text-color: red;\n\x7d\n"]) false 0 "" =
      ("<style>\n  body \x7b\n    text-color: red;\n  \x7d\n</style>\n", none) :=
  (raw_content_reindentation_short_lines "  " none none none
    (element .Style "style" [] [text "\nbody \x7b\n  text-color: red;\n\x7d\n"])
    (text "\nbody \x7b\n  text-color: red;\n\x7d\n") 0 "" rfl rfl (by decide) (by decide) rfl rfl
    (by decide) (by decide)).trans (by decide)



theorem byteLen_replicate (n : Nat) : utf8.byteLen (List.replicate n 'a') = n := by
  induction n with
  | zero => rfl
  | succ k ih =>
    rw [List.replicate_succ, utf8.byteLen, ih]
    have : 'a'.utf8Size = 1 := by decide
    omega

theorem rawLines_replicate (n : Nat) :
    bufio.rawLines (List.replicate (n + 1) 'a') = [List.replicate (n + 1) 'a'] := by
  induction n with
  | zero => rfl
  | succ k ih =>
    rw [List.replicate_succ, bufio.rawLines, ih]
    have : ¬ ('a' = '\n') := by decide
    simp only [this, if_false]

theorem TrimSpace_aLine (n : Nat) : strings.TrimSpace (aLine n) = aLine n := by
  have hd : ∀ k, (List.replicate k 'a').dropWhile unicode.IsSpace = List.replicate k 'a' := by
    intro k
    cases k with
    | zero => rfl
    | succ j =>
      have : unicode.IsSpace 'a' = false := by decide
      rw [List.replicate_succ, List.dropWhile_cons, this]
      rfl
  apply String.ext
  show ((List.replicate n 'a').dropWhile unicode.IsSpace).rdropWhile unicode.IsSpace =
    List.replicate n 'a'
  rw [hd]
  unfold List.rdropWhile
  rw [List.reverse_replicate, hd, List.reverse_replicate]

theorem aLine_ne_empty (n : Nat) : aLine (n + 1) ≠ "" := by
  intro h
  have : (aLine (n + 1)).data = [] := by rw [h]
  rw [aLine, List.replicate_succ] at this
  cases this

theorem scanLines_aLine (n : Nat) (h : bufio.MaxScanTokenSize ≤ n + 1) :
    bufio.scanLines (aLine (n + 1)) = ([], some Error.ErrTooLong) := by
  unfold bufio.scanLines
  show bufio.scan (bufio.rawLines (List.replicate (n + 1) 'a')) = _
  rw [rawLines_replicate, bufio.scan, byteLen_replicate]
  simp only [h, if_true]

/-- The rendering of a script element whose text is one line of at least
`bufio.MaxScanTokenSize` bytes stops after the opening tag with `bufio.ErrTooLong`. -/
theorem printNode_script_too_long (I : String) (parent prev next : Option Node) (n : Nat)
    (level : Nat) (w : String) (h : bufio.MaxScanTokenSize ≤ n + 1) :
    printNode Q stringsBuilder I parent prev next
        (element .Script "script" [] [text (aLine (n + 1))]) false level w =
      (w ++ (if indentsOpen false prev then strings.Repeat I level else "") ++ "<script>",
        some Error.ErrTooLong) := by
  rw [printNode_element_builder I parent prev next
    (element .Script "script" [] [text (aLine (n + 1))]) false level w rfl]
  have hv : isVoidElement (element .Script "script" [] [text (aLine (n + 1))]) = false := rfl
  have hs : hasSingleTextChild (some (element .Script "script" [] [text (aLine (n + 1))])) =
      true := rfl
  have hd : (element .Script "script" [] [text (aLine (n + 1))]).Data = "script" := rfl
  have hc : (element .Script "script" [] [text (aLine (n + 1))]).children =
      [text (aLine (n + 1))] := rfl
  have ho : openTag (element .Script "script" [] [text (aLine (n + 1))]) = "<script>" := rfl
  have hraw : (false || "script" == "pre" || "script" == "code") = false := by decide
  simp only [hv, Bool.false_eq_true, if_false, hd, hraw, printChildren, hc,
    printChildrenLoop_cons, printChildrenLoop_nil, List.head?_nil, breaksOpen, hs,
    Bool.not_true, Bool.and_false, String.append_empty, ho]
  rw [printNode_text_special I (some (element .Script "script" [] [text (aLine (n + 1))]))
    none none (text (aLine (n + 1))) (level + 1) _ rfl rfl]
  have hdt : (text (aLine (n + 1))).Data = aLine (n + 1) := rfl
  simp only [hdt, TrimSpace_aLine, aLine_ne_empty, if_false, scanLines_aLine n h,
    List.map_nil, concatAll, Option.isNone_some, Bool.false_eq_true, String.append_empty,
    andThen_err]

/-- C5, evaluation. A script element whose only child is a text node holding one line of
65536 bytes, which is its trimmed form and is not empty: the rendering outside raw mode
does not write the line; it stops after the opening tag and fails with the scanner's
`bufio.ErrTooLong`. -/
theorem raw_content_reindentation_evaluation :
    isSpecialContentElement (some longScript) = true ∧
      longScript.children = [text (aLine 65536)] ∧
      strings.TrimSpace (aLine 65536) ≠ "" ∧
      printNode unicode.IsPunct stringsBuilder "  " none none none longScript false 0 "" =
        ("<script>", some Error.ErrTooLong) :=
  ⟨rfl, rfl, by rw [TrimSpace_aLine]; exact aLine_ne_empty 65535,
    printNode_script_too_long "  " none none none 65535 0 "" (by decide)⟩

/-! ## C10: errors of the rendering -/

theorem Errs.of_pure {σ : Type} {P : Option Error → Prop} (h : P none) :
    Errs P (fun w : σ => (w, none)) := fun _ => h

theorem Errs.of_err {σ : Type} {P : Option Error → Prop} (o : Option Error) (h : P o) :
    Errs P (fun w : σ => (w, o)) := fun _ => h

theorem Errs.of_seq {σ : Type} {P : Option Error → Prop} {f k : σ → σ × Option Error}
    (hf : Errs P f) (hk : Errs P k) : Errs P (fun w => andThen (f w) k) := by
  intro w
  have h1 := hf w
  show P (andThen (f w) k).2
  rcases hfw : f w with ⟨w1, _ | e⟩
  · simp only [andThen_ok]; exact hk w1
  · rw [hfw] at h1; simpa using h1

theorem Errs.of_ite {σ : Type} {P : Option Error → Prop} {c : Prop} [Decidable c]
    {f g : σ → σ × Option Error} (hf : Errs P f) (hg : Errs P g) :
    Errs P (fun w => if c then f w else g w) := by
  intro w
  by_cases h : c
  · simp only [h, if_true]; exact hf w
  · simp only [h, if_false]; exact hg w

theorem Errs.congr {σ : Type} {P : Option Error → Prop} {f g : σ → σ × Option Error}
    (h : ∀ w, f w = g w) (hg : Errs P g) : Errs P f := by
  have : f = g := funext h
  rw [this]; exact hg

theorem Errs.of_write {σ : Type} {P : Option Error → Prop} (W : Writer σ)
    (hW : ∀ w p, P (W.Write w p).2) (p : String) : Errs P (fun w => W.Write w p) :=
  fun w => hW w p

theorem Errs.indent {σ : Type} {P : Option Error → Prop} (W : Writer σ)
    (hW : ∀ w p, P (W.Write w p).2) (I : String) (level : Nat) :
    Errs P (fun w => printIndent W I level w) :=
  fun w => hW w _

theorem Errs.attrs {σ : Type} {P : Option Error → Prop} (W : Writer σ) (hnone : P none)
    (hW : ∀ w p, P (W.Write w p).2) (attrs : List Attribute) :
    Errs P (fun w => printAttrs W attrs w) := by
  induction attrs with
  | nil => exact Errs.congr (fun w => by rw [printAttrs]) (Errs.of_pure hnone)
  | cons a as ih =>
    exact Errs.congr (fun w => by rw [printAttrs]) (Errs.of_seq (Errs.of_write W hW _) ih)

theorem Errs.scanned {σ : Type} {P : Option Error → Prop} (W : Writer σ) (hnone : P none)
    (hW : ∀ w p, P (W.Write w p).2) (I : String) (level : Nat) (ts : List String) :
    Errs P (fun w => printScanned W I level ts w) := by
  induction ts with
  | nil => exact Errs.congr (fun w => by rw [printScanned]) (Errs.of_pure hnone)
  | cons t ts ih =>
    exact Errs.congr (fun w => by rw [printScanned])
      (Errs.of_seq (Errs.of_write W hW _)
        (Errs.of_seq (Errs.indent W hW I level) (Errs.of_seq (Errs.of_write W hW _) ih)))

theorem scan_err_cases (ls : List (List Char)) :
    (bufio.scan ls).2 = none ∨ (bufio.scan ls).2 = some Error.ErrTooLong := by
  induction ls with
  | nil => exact Or.inl rfl
  | cons l ls ih =>
    by_cases h : bufio.MaxScanTokenSize ≤ utf8.byteLen l
    · right
      rw [bufio.scan, if_pos h]
    · rw [bufio.scan, if_neg h]
      exact ih

theorem linesFit_mk (parent : Option Node) (ty : NodeType) (da : atom.Atom) (data : String)
    (attr : List Attribute) (children : List Node) :
    linesFit parent (.mk ty da data attr children) =
      ((!(ty == NodeType.TextNode && isSpecialContentElement parent) ||
        (bufio.rawLines (strings.TrimSpace data).data).all fun l =>
          utf8.byteLen l < bufio.MaxScanTokenSize) &&
      linesFitList (some (.mk ty da data attr children)) children) := by
  rw [linesFit]

theorem linesFitList_cons (parent : Option Node) (c : Node) (cs : List Node) :
    linesFitList parent (c :: cs) = (linesFit parent c && linesFitList parent cs) := by
  rw [linesFitList]

theorem scanLines_err_of_fit (s : String)
    (h : ((bufio.rawLines s.data).all fun l => utf8.byteLen l < bufio.MaxScanTokenSize) = true) :
    (bufio.scanLines s).2 = none := by
  unfold bufio.scanLines
  rw [scan_of_fit]
  intro l hl
  have := List.all_eq_true.mp h l hl
  simpa using this

mutual
theorem printNode_errs {σ : Type} (W : Writer σ) (I : String) (P : Option Error → Prop)
    (hnone : P none) (hW : ∀ w p, P (W.Write w p).2) (parent prev next : Option Node) :
    ∀ (n : Node) (pre : Bool) (level : Nat),
      (P (some Error.ErrTooLong) ∨ linesFit parent n = true) →
      Errs P (printNode Q W I parent prev next n pre level)
  | .mk ty da data attr children, pre, level, hfit => by
    have hfit2 : P (some Error.ErrTooLong) ∨
        linesFitList (some (Node.mk ty da data attr children)) children = true := by
      rcases hfit with h | h
      · exact Or.inl h
      · rw [linesFit_mk] at h
        exact Or.inr (Bool.and_eq_true _ _ ▸ h).2
    have hc := fun p l => printChildrenLoop_errs W I P hnone hW
      (some (Node.mk ty da data attr children)) none children p l hfit2
    have hscan : ty = NodeType.TextNode → isSpecialContentElement parent = true →
        P (bufio.scanLines (strings.TrimSpace data)).2 := by
      intro hty hsp
      rcases hfit with h | h
      · rcases scan_err_cases (bufio.rawLines (strings.TrimSpace data).data) with h1 | h1
        · unfold bufio.scanLines; rw [h1]; exact hnone
        · unfold bufio.scanLines; rw [h1]; exact h
      · rw [linesFit_mk] at h
        have h2 := (Bool.and_eq_true _ _ ▸ h).1
        simp only [hty, hsp, beq_self_eq_true, Bool.and_self, Bool.not_true,
          Bool.false_or] at h2
        rw [scanLines_err_of_fit _ h2]
        exact hnone
    cases ty
    all_goals refine Errs.congr (fun w => by rw [printNode]) ?_
    all_goals dsimp only
    case TextNode =>
      refine Errs.of_ite (Errs.of_write W hW _) ?_
      refine Errs.of_ite ?_ (Errs.of_pure hnone)
      refine Errs.of_seq (Errs.of_ite (Errs.indent W hW I level) (Errs.of_pure hnone)) ?_
      by_cases hsp : isSpecialContentElement parent = true
      · simp only [hsp, if_true]
        exact Errs.of_seq (Errs.scanned W hnone hW I level _)
          (Errs.of_seq (Errs.of_err _ (hscan rfl hsp)) (Errs.of_write W hW _))
      · simp only [hsp, if_false]
        exact Errs.of_seq (Errs.of_write W hW _)
          (Errs.of_ite (Errs.of_ite (Errs.of_write W hW _) (Errs.of_pure hnone)) (Errs.of_pure hnone))
    all_goals
      repeat (first
        | exact hc _ _
        | exact Errs.of_pure hnone
        | exact Errs.of_write W hW _
        | exact Errs.indent W hW _ _
        | exact Errs.attrs W hnone hW _
        | apply Errs.of_seq
        | apply Errs.of_ite)
theorem printChildrenLoop_errs {σ : Type} (W : Writer σ) (I : String)
    (P : Option Error → Prop) (hnone : P none) (hW : ∀ w p, P (W.Write w p).2)
    (parent prev : Option Node) :
    ∀ (cs : List Node) (pre : Bool) (level : Nat),
      (P (some Error.ErrTooLong) ∨ linesFitList parent cs = true) →
      Errs P (printChildrenLoop Q W I parent prev cs pre level)
  | [], _, _, _ => by
    refine Errs.congr (fun w => by rw [printChildrenLoop]) ?_
    exact Errs.of_pure hnone
  | c :: rest, pre, level, hfit => by
    refine Errs.congr (fun w => by rw [printChildrenLoop]) ?_
    have h1 : P (some Error.ErrTooLong) ∨ linesFit parent c = true := by
      rcases hfit with h | h
      · exact Or.inl h
      · rw [linesFitList_cons] at h
        exact Or.inr (Bool.and_eq_true _ _ ▸ h).1
    have h2 : P (some Error.ErrTooLong) ∨ linesFitList parent rest = true := by
      rcases hfit with h | h
      · exact Or.inl h
      · rw [linesFitList_cons] at h
        exact Or.inr (Bool.and_eq_true _ _ ▸ h).2
    exact Errs.of_seq (printNode_errs W I P hnone hW parent prev rest.head? c pre level h1)
      (printChildrenLoop_errs W I P hnone hW parent (some c) rest pre level h2)
end

theorem Nodes_errs {σ : Type} (W : Writer σ) (I : String) (P : Option Error → Prop)
    (hnone : P none) (hW : ∀ w p, P (W.Write w p).2) (nodes : List NodeRef)
    (hfit : P (some Error.ErrTooLong) ∨ ∀ r ∈ nodes, linesFit r.Parent r.node = true) :
    Errs P (Nodes Q W I nodes) := by
  induction nodes with
  | nil => exact Errs.congr (fun w => by rw [Nodes]) (Errs.of_pure hnone)
  | cons r rs ih =>
    refine Errs.congr (fun w => by rw [Nodes]) ?_
    refine Errs.of_seq (printNode_errs W I P hnone hW _ _ _ r.node false 0 ?_) (ih ?_)
    · rcases hfit with h | h
      · exact Or.inl h
      · exact Or.inr (h r (List.mem_cons_self _ _))
    · rcases hfit with h | h
      · exact Or.inl h
      · exact Or.inr (fun x hx => h x (List.mem_cons_of_mem _ hx))

/-- C10, evaluation. The builder sink never fails, and `Nodes` on a script element whose
text is one line of 65536 bytes returns an error that no write of the sink has returned:
`bufio.ErrTooLong`, after the opening tag. -/
theorem rendering_total_evaluation :
    (∀ w p, (stringsBuilder.Write w p).2 = none) ∧
      Nodes unicode.IsPunct stringsBuilder "  " [detached longScript] "" =
        ("<script>", some Error.ErrTooLong) := by
  refine ⟨fun _ _ => rfl, ?_⟩
  rw [Nodes]
  show andThen (printNode unicode.IsPunct stringsBuilder "  " none none none
    (element .Script "script" [] [text (aLine (65535 + 1))]) false 0 "") _ = _
  rw [printNode_script_too_long "  " none none none 65535 0 "" (by decide)]
  rfl

/-- The errors of the rendering. If no text node under a script or style element has, after
trimming, a line of 65536 bytes or more, then with a sink whose writes never fail `Nodes` returns no
error, and with any sink an error it returns is one returned by a write of the sink. For
every tree, an error `Nodes` returns is the scanner's `ErrTooLong` or one returned by a write
of the sink. -/
theorem rendering_errors {σ : Type} (W : Writer σ) (I : String) (nodes : List NodeRef)
    (w : σ) :
    ((∀ r ∈ nodes, linesFit r.Parent r.node = true) →
      (∀ w2 p, (W.Write w2 p).2 = none) → (Nodes Q W I nodes w).2 = none) ∧
    ((∀ r ∈ nodes, linesFit r.Parent r.node = true) →
      ∀ e, (Nodes Q W I nodes w).2 = some e → ∃ w2 p, (W.Write w2 p).2 = some e) ∧
    (∀ e, (Nodes Q W I nodes w).2 = some e →
      e = Error.ErrTooLong ∨ ∃ w2 p, (W.Write w2 p).2 = some e) := by
  refine ⟨?_, ?_, ?_⟩
  · intro hfit hW
    exact Nodes_errs W I (fun o => o = none) rfl hW nodes (Or.inr hfit) w
  · intro hfit e he
    exact Nodes_errs W I (fun o => ∀ e, o = some e → ∃ w2 p, (W.Write w2 p).2 = some e)
      (fun e h => by cases h) (fun w2 p e h => ⟨w2, p, h⟩) nodes (Or.inr hfit) w e he
  · intro e he
    exact Nodes_errs W I
      (fun o => ∀ e, o = some e → e = Error.ErrTooLong ∨ ∃ w2 p, (W.Write w2 p).2 = some e)
      (fun e h => by cases h) (fun w2 p e h => Or.inr ⟨w2, p, h⟩) nodes
      (Or.inl (fun e h => by cases h; exact Or.inl rfl)) w e he

/-- The tree of the test "html elements are indented": on the builder no error is
returned; on a closed pipe the error returned is the one of the sink. -/
theorem rendering_errors_example :
    (Nodes unicode.IsPunct stringsBuilder "  " [detached olExample, detached (text " ")] "").2 =
        none ∧
      (Nodes unicode.IsPunct closedPipe "  " [detached olExample] ()).2 = some (Error.other
          "closed pipe") :=
  ⟨(rendering_errors stringsBuilder "  " [detached olExample, detached (text " ")]
      "").1 (by decide) (fun _ _ => rfl),
    by decide⟩

/-! ## C12: raw-mode propagation -/

/-- C12, counterexample. For a script element the flag of the claim is true, but the element
is rendered outside raw mode with its children outside raw mode too: the text is reindented
and left unescaped, where the raw-mode rendering of the children is the escaped text. -/
theorem raw_mode_propagation_counterexample :
    rawFlagSpec false scriptExample = true ∧
      printNode unicode.IsPunct stringsBuilder "  " none none none scriptExample false 0 "" =
        ("<script>\n  a<b\n</script>\n", none) ∧
      printChildren unicode.IsPunct stringsBuilder "  " scriptExample false 1 "" = ("\n  a<b\n",
          none) ∧
      printChildren unicode.IsPunct stringsBuilder "  " scriptExample (rawFlagSpec false
          scriptExample) 1 "" =
        ("a&lt;b", none) := by
  decide

/-- C12, amended (raw-mode propagation). A non-void element rendered with the raw-mode flag
`pre` at level `level` has its children rendered at level `level + 1` with the flag `pre`,
or the tag is `pre`, or the tag is `code`: the output is the opening part, the rendering of
the children with that flag, and the closing part. Being a script or style element does not
set the flag: when the tag is neither `pre` nor `code` the children get the flag `pre`
itself. -/
theorem raw_mode_propagation_amended (I : String) (parent prev next : Option Node) (n : Node)
    (pre : Bool) (level : Nat) (w : String)
    (hn : n.Type' = NodeType.ElementNode) (hvoid : isVoidElement n = false) :
    printNode Q stringsBuilder I parent prev next n pre level w =
        (w ++ (if indentsOpen pre prev then strings.Repeat I level else "") ++ openTag n ++
          (if breaksOpen pre n then "\n" else "") ++
          (printChildren Q stringsBuilder I n (pre || n.Data == "pre" || n.Data == "code")
            (level + 1) "").1 ++
          (if (printChildren Q stringsBuilder I n (pre || n.Data == "pre" || n.Data == "code")
              (level + 1) "").2.isNone then
            (if indentsClose pre n then strings.Repeat I level else "") ++ closeTag n ++
              (if breaksClose Q pre next then "\n" else "")
          else ""),
          (printChildren Q stringsBuilder I n (pre || n.Data == "pre" || n.Data == "code")
            (level + 1) "").2) ∧
      (n.Data ≠ "pre" → n.Data ≠ "code" →
        (pre || n.Data == "pre" || n.Data == "code") = pre) ∧
      (n.Data = "pre" ∨ n.Data = "code" →
        (pre || n.Data == "pre" || n.Data == "code") = true) := by
  refine ⟨?_, ?_, ?_⟩
  · rw [printNode_element_explicit I parent prev next n pre level w hn]
    simp only [hvoid, Bool.false_eq_true, if_false]
  · intro h1 h2
    have ha : (n.Data == "pre") = false := beq_eq_false_iff_ne.mpr h1
    have hb : (n.Data == "code") = false := beq_eq_false_iff_ne.mpr h2
    rw [ha, hb, Bool.or_false, Bool.or_false]
  · intro h
    rcases h with h | h
    · have ha : (n.Data == "pre") = true := beq_iff_eq.mpr h
      rw [ha, Bool.or_true, Bool.true_or]
    · have hb : (n.Data == "code") = true := beq_iff_eq.mpr h
      rw [hb, Bool.or_true]

/-- C12 at the script element of the test "script tags are only indented" and at a `pre`
element with two children: the text of the script is reindented outside raw mode, the
children of `pre` are rendered in raw mode. -/
theorem raw_mode_propagation_amended_witness :
    printNode unicode.IsPunct stringsBuilder "  " none none none
        (element .Script "script" [] [text "\n\tvar x = 1;\n"]) false 0 "" =
        ("<script>\n  var x = 1;\n</script>\n", none) ∧
      printChildren unicode.IsPunct stringsBuilder "  "
        (element (.Other "pre") "pre" [] [text " a <", element .B "b" [] [text " c "]])
        (false || "pre" == "pre" || "pre" == "code") 1 "" = (" a &lt;<b> c </b>", none) :=
  ⟨((raw_mode_propagation_amended "  " none none none
      (element .Script "script" [] [text "\n\tvar x = 1;\n"]) false 0 "" rfl rfl).1).trans
      (by decide),
    by decide⟩

/-! ## C13 and C14: indentation and line break around an element -/

theorem indentsOpen_iff (pre : Bool) (prev : Option Node) :
    indentsOpen pre prev = true ↔
      (pre = false ∧ (prev = none ∨ ∃ p, prev = some p ∧
        (p.Type' ≠ NodeType.TextNode ∨ unicode.IsSpace (getLastRune p.Data) = true))) := by
  unfold indentsOpen
  cases pre <;> cases prev <;> simp

/-- C13, counterexample. In raw mode the first child of a `pre` element, a `span` at level 2,
is rendered without any indentation, although the rule of the claim asks for indentation
whenever the raw-mode flag is true. -/
theorem element_leading_indentation_counterexample :
    indentsOpenSpec true none = true ∧
      strings.Repeat "  " 2 = "    " ∧
      printNode unicode.IsPunct stringsBuilder "  " (some preExample) none
        (some (element .Span "span" [] [text "b"])) (element .Span "span" [] [text "a"])
        true 2 "" = ("<span>a</span>", none) := by
  decide

/-- C13, amended (element leading indentation). For every element rendered at level `level`
with raw-mode flag `pre`, the `level` indent units are written before the opening tag if
and only if `pre` is false and there is no previous sibling, or the previous sibling is not
a text node, or the text of the previous sibling ends in white space; otherwise the opening
tag is written first. In raw mode no indentation is written. -/
theorem element_leading_indentation_amended (I : String) (parent prev next : Option Node)
    (n : Node) (pre : Bool) (level : Nat) (w : String)
    (hn : n.Type' = NodeType.ElementNode) :
    ((pre = false ∧ (prev = none ∨ ∃ p, prev = some p ∧
        (p.Type' ≠ NodeType.TextNode ∨ unicode.IsSpace (getLastRune p.Data) = true))) →
      ∃ rest, (printNode Q stringsBuilder I parent prev next n pre level w).1 =
        w ++ strings.Repeat I level ++ openTag n ++ rest) ∧
    (¬ (pre = false ∧ (prev = none ∨ ∃ p, prev = some p ∧
        (p.Type' ≠ NodeType.TextNode ∨ unicode.IsSpace (getLastRune p.Data) = true))) →
      ∃ rest, (printNode Q stringsBuilder I parent prev next n pre level w).1 =
        w ++ openTag n ++ rest) := by
  obtain ⟨rest, h⟩ := printNode_element_opening I parent prev next n pre level w hn
  constructor
  · intro hc
    have := (indentsOpen_iff pre prev).mpr hc
    rw [this] at h
    exact ⟨rest, by simpa using h⟩
  · intro hc
    have : indentsOpen pre prev = false := by
      cases hi : indentsOpen pre prev with
      | false => rfl
      | true => exact absurd ((indentsOpen_iff pre prev).mp hi) hc
    rw [this] at h
    exact ⟨rest, by simpa using h⟩

/-- C13 at the second `<li>` of the test "html elements are indented" (after a blank text
node, level 1) and at a `span` in raw mode. -/
theorem element_leading_indentation_amended_witness :
    (∃ rest, (printNode unicode.IsPunct stringsBuilder "  " (some olExample) (some (text " "))
        (some (text " ")) (element (.Other "li") "li" [] [text " B "]) false 1 "").1 =
        "  <li>" ++ rest) ∧
      (∃ rest, (printNode unicode.IsPunct stringsBuilder "  " (some preExample) none none
        (element .Span "span" [] [text "a"]) true 2 "").1 = "<span>" ++ rest) :=
  ⟨(element_leading_indentation_amended "  " (some olExample) (some (text " "))
      (some (text " ")) (element (.Other "li") "li" [] [text " B "]) false 1 "" rfl).1
      ⟨rfl, Or.inr ⟨text " ", rfl, Or.inr (by decide)⟩⟩,
    (element_leading_indentation_amended "  " (some preExample) none none
      (element .Span "span" [] [text "a"]) true 2 "" rfl).2
      (fun h => absurd h.1 (by decide))⟩

theorem breaksClose_iff (next : Option Node) :
    breaksClose Q false next = true ↔
      (next = none ∨ (∃ m, next = some m ∧ m.Type' = NodeType.ElementNode) ∨
        (∃ m, next = some m ∧ m.Type' = NodeType.TextNode ∧
          Q (getFirstRune m.Data) = false)) := by
  unfold breaksClose
  cases next <;> simp

theorem breaksClose_raw (next : Option Node) : breaksClose Q true next = false := rfl

/-- The trailing break of an element, as far as the children are rendered without error,
for every table of punctuation. For a non-void element rendered outside raw mode whose
children have been rendered without error, a line break follows the closing tag if and only
if there is no next sibling, or the next sibling is an element, or the next sibling is a
text node whose data does not start with a punctuation character; in raw mode the closing
tag is the last thing written. If the children return an error, the rendering returns it
and writes no closing part. -/
theorem element_trailing_break (I : String) (parent prev next : Option Node) (n : Node)
    (level : Nat) (w : String)
    (hn : n.Type' = NodeType.ElementNode) (hvoid : isVoidElement n = false) :
    ((next = none ∨ (∃ m, next = some m ∧ m.Type' = NodeType.ElementNode) ∨
        (∃ m, next = some m ∧ m.Type' = NodeType.TextNode ∧
          Q (getFirstRune m.Data) = false)) →
      printNode Q stringsBuilder I parent prev next n false level w =
        (w ++ (if indentsOpen false prev then strings.Repeat I level else "") ++ openTag n ++
          (if breaksOpen false n then "\n" else "") ++
          (printChildren Q stringsBuilder I n (n.Data == "pre" || n.Data == "code")
            (level + 1) "").1 ++
          (if (printChildren Q stringsBuilder I n (n.Data == "pre" || n.Data == "code")
              (level + 1) "").2.isNone then
            (if indentsClose false n then strings.Repeat I level else "") ++ closeTag n ++ "\n"
          else ""),
          (printChildren Q stringsBuilder I n (n.Data == "pre" || n.Data == "code")
            (level + 1) "").2)) ∧
    (¬ (next = none ∨ (∃ m, next = some m ∧ m.Type' = NodeType.ElementNode) ∨
        (∃ m, next = some m ∧ m.Type' = NodeType.TextNode ∧
          Q (getFirstRune m.Data) = false)) →
      printNode Q stringsBuilder I parent prev next n false level w =
        (w ++ (if indentsOpen false prev then strings.Repeat I level else "") ++ openTag n ++
          (if breaksOpen false n then "\n" else "") ++
          (printChildren Q stringsBuilder I n (n.Data == "pre" || n.Data == "code")
            (level + 1) "").1 ++
          (if (printChildren Q stringsBuilder I n (n.Data == "pre" || n.Data == "code")
              (level + 1) "").2.isNone then
            (if indentsClose false n then strings.Repeat I level else "") ++ closeTag n
          else ""),
          (printChildren Q stringsBuilder I n (n.Data == "pre" || n.Data == "code")
            (level + 1) "").2)) ∧
    printNode Q stringsBuilder I parent prev next n true level w =
      (w ++ openTag n ++ (printChildren Q stringsBuilder I n true (level + 1) "").1 ++
        (if (printChildren Q stringsBuilder I n true (level + 1) "").2.isNone then closeTag n
          else ""),
        (printChildren Q stringsBuilder I n true (level + 1) "").2) := by
  refine ⟨?_, ?_, ?_⟩
  · intro hc
    rw [printNode_element_explicit I parent prev next n false level w hn]
    simp only [hvoid, Bool.false_eq_true, if_false, Bool.false_or,
      (breaksClose_iff next).mpr hc, if_true]
  · intro hc
    have : breaksClose Q false next = false := by
      cases hi : breaksClose Q false next with
      | false => rfl
      | true => exact absurd ((breaksClose_iff next).mp hi) hc
    rw [printNode_element_explicit I parent prev next n false level w hn]
    simp only [hvoid, Bool.false_eq_true, if_false, Bool.false_or, this, String.append_empty]
  · rw [printNode_element_explicit I parent prev next n true level w hn]
    simp only [hvoid, Bool.false_eq_true, if_false, Bool.true_or, indentsOpen, breaksOpen,
      indentsClose, breaksClose_raw, Bool.not_true, Bool.false_and, String.append_empty,
      String.empty_append]

/-- The link of the test "phrasing content element children are kept on the same
line, including punctuation" (followed by a period: no break) and at the last `<li>` of the
test "html elements are indented" (followed by a blank text node: break). -/
theorem element_trailing_break_example :
    printNode unicode.IsPunct stringsBuilder "  " none none (some (text ".")) linkExample false 2
        "" =
        ("    <a href=\"http://example.com\">Test</a>", none) ∧
      printNode unicode.IsPunct stringsBuilder "  " (some olExample) (some (text " ")) (some (text
          " "))
        (element (.Other "li") "li" [] [text " B "]) false 1 "" = ("  <li>B</li>\n", none) :=
  ⟨((element_trailing_break "  " none none (some (text ".")) linkExample 2 "" rfl rfl).2.1
      (by
        rintro (h | ⟨m, h, h2⟩ | ⟨m, h, h2, h3⟩)
        · cases h
        · cases h; exact absurd h2 (by decide)
        · cases h; exact absurd h3 (by decide))).trans (by decide),
    ((element_trailing_break "  " (some olExample) (some (text " ")) (some (text " "))
      (element (.Other "li") "li" [] [text " B "]) 1 "" rfl rfl).1
      (Or.inr (Or.inr ⟨text " ", rfl, rfl, by decide⟩))).trans (by decide)⟩

/-! ## C15 and C19: the text node outside raw mode -/

theorem breaksText_iff (parent next : Option Node) (data : String)
    (hsingle : hasSingleTextChild parent = false) :
    breaksText parent next data = true ↔
      (unicode.IsSpace (getLastRune data) = true ∨ next = none ∨
        ∃ m, next = some m ∧ m.Type' = NodeType.ElementNode ∧ isInlineElement m = false) := by
  unfold breaksText
  rw [hsingle]
  cases next <;> simp

/-- C15, counterexample. The text `a ` before the inline element `<b>`: the text written is
`a`, which does not end with white space, there is a next sibling and it is inline, so the
rule of the claim gives no break; the code writes the break, because the untrimmed data ends
with a space. -/
theorem text_trailing_break_counterexample :
    strings.TrimSpace "a " ≠ "" ∧
      isSpecialContentElement (some boldExample) = false ∧
      hasSingleTextChild (some boldExample) = false ∧
      collapseWhitespace (strings.TrimSpace "a ") = "a" ∧
      breaksTextSpec (collapseWhitespace (strings.TrimSpace "a "))
        (some (element .B "b" [] [text "c"])) = false ∧
      printNode unicode.IsPunct stringsBuilder "  " (some boldExample) none
        (some (element .B "b" [] [text "c"])) (text "a ") false 1 "" = ("  a\n", none) := by
  decide

/-- C15, amended (text trailing break). For a text node rendered outside raw mode whose
trimmed data is not empty, whose parent is not a script or style element and does not have
it as its single child, a line break follows the text if and only if the untrimmed data of
the node ends with white space, or there is no next sibling, or the next sibling is an
element that is not inline; otherwise nothing follows the text. -/
theorem text_trailing_break_amended (I : String) (parent prev next : Option Node) (n : Node)
    (level : Nat) (w : String)
    (hn : n.Type' = NodeType.TextNode) (hne : strings.TrimSpace n.Data ≠ "")
    (hparent : isSpecialContentElement parent = false)
    (hsingle : hasSingleTextChild parent = false) :
    ((unicode.IsSpace (getLastRune n.Data) = true ∨ next = none ∨
        ∃ m, next = some m ∧ m.Type' = NodeType.ElementNode ∧ isInlineElement m = false) →
      printNode Q stringsBuilder I parent prev next n false level w =
        (w ++ (if indentsText Q parent prev (strings.TrimSpace n.Data) then strings.Repeat I level
            else "") ++ strings.TrimSpace n.Data ++ "\n", none)) ∧
    (¬ (unicode.IsSpace (getLastRune n.Data) = true ∨ next = none ∨
        ∃ m, next = some m ∧ m.Type' = NodeType.ElementNode ∧ isInlineElement m = false) →
      printNode Q stringsBuilder I parent prev next n false level w =
        (w ++ (if indentsText Q parent prev (strings.TrimSpace n.Data) then strings.Repeat I level
            else "") ++ strings.TrimSpace n.Data, none)) := by
  have h := printNode_text_builder (Q := Q) I parent prev next n level w hn hparent
  simp only [hne, if_false] at h
  constructor
  · intro hc
    rw [h, (breaksText_iff parent next n.Data hsingle).mpr hc]
    simp only [if_true]
  · intro hc
    have hb : breaksText parent next n.Data = false := by
      cases hi : breaksText parent next n.Data with
      | false => rfl
      | true => exact absurd ((breaksText_iff parent next n.Data hsingle).mp hi) hc
    rw [h, hb]
    simp only [Bool.false_eq_true, if_false, String.append_empty]

/-- C15 at the text `a ` before `<b>` (break, the data ends with a space) and at the text
`a` before `<b>` (no break). -/
theorem text_trailing_break_amended_witness :
    printNode unicode.IsPunct stringsBuilder "  " (some boldExample) none
        (some (element .B "b" [] [text "c"])) (text "a ") false 1 "" = ("  a\n", none) ∧
      printNode unicode.IsPunct stringsBuilder "  " (some boldExample) none
        (some (element .B "b" [] [text "c"])) (text "a") false 1 "" = ("  a", none) :=
  ⟨((text_trailing_break_amended "  " (some boldExample) none
      (some (element .B "b" [] [text "c"])) (text "a ") 1 "" rfl (by decide) rfl rfl).1
      (Or.inl (by decide))).trans (by decide),
    ((text_trailing_break_amended "  " (some boldExample) none
      (some (element .B "b" [] [text "c"])) (text "a") 1 "" rfl (by decide) rfl rfl).2
      (by
        rintro (h | h | ⟨m, h, _, h3⟩)
        · exact absurd h (by decide)
        · cases h
        · cases h; exact absurd h3 (by decide))).trans (by decide)⟩

/-- C19 (the normaliser is the identity as the renderer uses it). On a trimmed string
`collapseWhitespace` returns its argument. So a text node rendered outside raw mode under a
parent that is not a script or style element is written as its trimmed data, unchanged
inside and unescaped, after the optional indentation and before the optional line break;
nothing is written when the trimmed data is empty. -/
theorem normaliser_identity (I : String) (parent prev next : Option Node) (n : Node)
    (level : Nat) (w : String)
    (hn : n.Type' = NodeType.TextNode) (hparent : isSpecialContentElement parent = false) :
    (∀ x, collapseWhitespace (strings.TrimSpace x) = strings.TrimSpace x) ∧
      (∃ lead trail, (lead = "" ∨ lead = strings.Repeat I level) ∧
        (trail = "" ∨ trail = "\n") ∧
        printNode Q stringsBuilder I parent prev next n false level w =
          (w ++ lead ++ strings.TrimSpace n.Data ++ trail, none)) ∧
      (strings.TrimSpace n.Data = "" →
        printNode Q stringsBuilder I parent prev next n false level w = (w, none)) := by
  have h := printNode_text_builder (Q := Q) I parent prev next n level w hn hparent
  refine ⟨collapseWhitespace_TrimSpace, ?_, ?_⟩
  · by_cases h0 : strings.TrimSpace n.Data = ""
    · refine ⟨"", "", Or.inl rfl, Or.inl rfl, ?_⟩
      rw [h, h0]
      simp
    · refine ⟨if indentsText Q parent prev (strings.TrimSpace n.Data) then strings.Repeat I level
        else "", if breaksText parent next n.Data then "\n" else "", ?_, ?_, ?_⟩
      · by_cases hi : indentsText Q parent prev (strings.TrimSpace n.Data) = true
        · right; simp only [hi, if_true]
        · left; simp [hi]
      · by_cases hi : breaksText parent next n.Data = true
        · right; simp only [hi, if_true]
        · left; simp [hi]
      · rw [h]
        simp only [h0, if_false]
  · intro h0
    rw [h]
    simp only [h0, if_true]

/-- C19 at a text with white space, a line break and markup characters inside: the body
written is the trimmed data as it is. -/
theorem normaliser_identity_witness :
    collapseWhitespace (strings.TrimSpace "  a  <b>\n &  c \n") = "a  <b>\n &  c" ∧
      printNode unicode.IsPunct stringsBuilder "  " none none none (text "  a  <b>\n &  c \n")
          false 1 "" =
        ("  a  <b>\n &  c\n", none) :=
  ⟨((normaliser_identity (Q := unicode.IsPunct) "  " none none none (text "  a  <b>\n &  c \n") 1
      "" rfl rfl).1
      "  a  <b>\n &  c \n").trans (by decide),
    by decide⟩

/-! ## C16: the lines of script and style content -/

/-- C16, counterexample. The text of the test "script tags are only indented" begins with a
line break and a tab and ends with a line break. The code writes the one line of the trimmed
text; the wording of the claim, applied to the untrimmed text, gives an empty first line and
keeps the tab. -/
theorem raw_content_lines_counterexample :
    isSpecialContentElement (some (element .Script "script" [] [text "\n\tvar x = 1;\n"])) =
        true ∧
      strings.TrimSpace "\n\tvar x = 1;\n" ≠ "" ∧
      printNode unicode.IsPunct stringsBuilder "  "
        (some (element .Script "script" [] [text "\n\tvar x = 1;\n"])) none none
        (text "\n\tvar x = 1;\n") false 1 "" = ("\n  var x = 1;\n", none) ∧
      rawContentSpec "  " 1 "\n\tvar x = 1;\n" = "\n  \n  \tvar x = 1;\n" := by
  decide

/-- C16, amended (the lines of script and style content). A text node whose parent is a
script or style element and whose trimmed data is not empty and has no line of 65536 bytes
or more is rendered outside raw mode at level `level` as, for each line of the trimmed data
(split at line feeds, one trailing carriage return removed), a line break, `level` indent
units and the line as it is, followed by one final line break. The trimmed data neither
begins nor ends with white space, so blank lines around the text and the white space before
its first line are not written. -/
theorem raw_content_lines_amended (I : String) (parent prev next : Option Node) (n : Node)
    (level : Nat) (w : String)
    (hn : n.Type' = NodeType.TextNode) (hparent : isSpecialContentElement parent = true)
    (hne : strings.TrimSpace n.Data ≠ "")
    (hfit : ∀ l ∈ bufio.rawLines (strings.TrimSpace n.Data).data,
      utf8.byteLen l < bufio.MaxScanTokenSize) :
    printNode Q stringsBuilder I parent prev next n false level w =
        (w ++ concatAll ((bufio.rawLines (strings.TrimSpace n.Data).data).map fun l =>
          "\n" ++ strings.Repeat I level ++ String.mk (bufio.dropCR l)) ++ "\n", none) ∧
      unicode.IsSpace (getFirstRune (strings.TrimSpace n.Data)) = false ∧
      unicode.IsSpace (getLastRune (strings.TrimSpace n.Data)) = false := by
  refine ⟨?_, first_trim_not_space n.Data, last_trim_not_space n.Data⟩
  rw [printNode_text_special I parent prev next n level w hn hparent]
  simp only [hne, if_false, bufio.scanLines, scan_of_fit _ hfit, Option.isNone_none, if_true,
    List.map_map]
  rfl

/-- C16 at the text of the test "script tags are only indented", at level 1. -/
theorem raw_content_lines_amended_witness :
    printNode unicode.IsPunct stringsBuilder "  "
        (some (element .Script "script" [] [text "\n\tvar x = 1;\n"])) none none
        (text "\n\tvar x = 1;\n") false 1 "" = ("\n  var x = 1;\n", none) :=
  ((raw_content_lines_amended "  "
    (some (element .Script "script" [] [text "\n\tvar x = 1;\n"])) none none
    (text "\n\tvar x = 1;\n") 1 "" rfl rfl (by decide) (by decide)).1).trans (by decide)

/-! ## C11, C17, C18 and C20: evaluations -/

/-- C20, evaluation. A `pre` element with two `span` children at level 1, outside raw mode:
the raw-mode renderings of its children are `<span>a</span><span>b</span>`, but a line break
is written after the opening tag and one indent unit before the closing tag. -/
theorem pre_content_padding_evaluation :
    printChildren unicode.IsPunct stringsBuilder "  " preExample true 2 "" =
        ("<span>a</span><span>b</span>", none) ∧
      printNode unicode.IsPunct stringsBuilder "  " (some divPreExample) none none preExample false
          1 "" =
        ("  <pre>\n<span>a</span><span>b</span>  </pre>\n", none) ∧
      printNode unicode.IsPunct stringsBuilder "  " (some divPreExample) none none preExample false
          1 "" ≠
        ("  <pre><span>a</span><span>b</span></pre>\n", none) := by
  decide

/-- C11, evaluation. The fragment `<div><pre><span>a</span><span>b</span></pre></div>` is
rendered with two spaces before `</pre>`; the tree parsed from that output is rendered with
four spaces before `</pre>`: the second pass does not reproduce the first. -/
theorem idempotence_evaluation :
    Nodes unicode.IsPunct stringsBuilder "  " [detached divPreExample] "" =
        ("<div>\n  <pre>\n<span>a</span><span>b</span>  </pre>\n</div>\n", none) ∧
      Nodes unicode.IsPunct stringsBuilder "  " [detached divPreReparsed, detached (text "\n")] "" =
        ("<div>\n  <pre>\n<span>a</span><span>b</span>    </pre>\n</div>\n", none) ∧
      Nodes unicode.IsPunct stringsBuilder "  " [detached divPreReparsed, detached (text "\n")]
          "" ≠
        Nodes unicode.IsPunct stringsBuilder "  " [detached divPreExample] "" := by
  decide

/-- C17, evaluation. A comment node rendered with the raw-mode flag true: the indentation
and a line break are written, so the output changes with the level and with the indent
unit; inside a `pre` element the comment is set on a line of its own. -/
theorem raw_mode_comment_evaluation :
    printNode unicode.IsPunct stringsBuilder "  " (some preCommentExample) (some (text "a")) (some
        (text "b"))
        (comment "c") true 0 "" = ("<!--c-->\n", none) ∧
      printNode unicode.IsPunct stringsBuilder "  " (some preCommentExample) (some (text "a"))
        (some (text "b")) (comment "c") true 2 "" = ("    <!--c-->\n", none) ∧
      printNode unicode.IsPunct stringsBuilder "\t" (some preCommentExample) (some (text "a"))
        (some (text "b")) (comment "c") true 2 "" = ("\t\t<!--c-->\n", none) ∧
      Nodes unicode.IsPunct stringsBuilder "  " [detached (element (.Other "div") "div" []
          [preCommentExample])]
        "" = ("<div>\n  <pre>\na    <!--c-->\nb  </pre>\n</div>\n", none) := by
  decide

/-- C18, evaluation. In `<li>a<div>b</div></li>` the text `a` is followed by a line break
(its next sibling is an element that is not inline) and the indentation of `<div>` is
omitted (its previous sibling is a text node that does not end in white space): `<div>`
stands unindented at the start of a line. In `<p><br>.</p>` the period, a text with a
previous sibling that starts with punctuation, stands unindented after the line break of
`<br>`. -/
theorem omitted_indentation_evaluation :
    indentsOpen false (some (text "a")) = false ∧
      printNode unicode.IsPunct stringsBuilder "  " (some liDivExample) none
        (some (element (.Other "div") "div" [] [text "b"])) (text "a") false 1 "" =
        ("  a\n", none) ∧
      Nodes unicode.IsPunct stringsBuilder "  " [detached liDivExample] "" =
        ("<li>\n  a\n<div>b</div>\n</li>\n", none) ∧
      indentsText unicode.IsPunct (some brPeriodExample) (some (element .Br "br" [] [])) "." =
          false ∧
      printNode unicode.IsPunct stringsBuilder "  " (some brPeriodExample) none (some (text "."))
        (element .Br "br" [] []) false 1 "" = ("  <br>\n", none) ∧
      Nodes unicode.IsPunct stringsBuilder "  " [detached brPeriodExample] "" =
        ("<p>\n  <br>\n.\n</p>\n", none) := by
  decide

/-! ## C2, C4, C6 and C14: a script or style line beyond the limit of the scanner -/

/-- The rendering of a script or style element whose text is one line of at least
`bufio.MaxScanTokenSize` bytes stops after the opening tag with `bufio.ErrTooLong`. -/
theorem printNode_raw_too_long (I : String) (parent prev next : Option Node) (a : atom.Atom)
    (tag : String) (n : Nat) (level : Nat) (w : String)
    (hspecial : isSpecialContentElement (some (element a tag [] [text (aLine (n + 1))])) = true)
    (hpre : tag ≠ "pre") (hcode : tag ≠ "code") (h : bufio.MaxScanTokenSize ≤ n + 1) :
    printNode Q stringsBuilder I parent prev next
        (element a tag [] [text (aLine (n + 1))]) false level w =
      (w ++ (if indentsOpen false prev then strings.Repeat I level else "") ++
        openTag (element a tag [] [text (aLine (n + 1))]), some Error.ErrTooLong) := by
  rw [printNode_element_builder I parent prev next
    (element a tag [] [text (aLine (n + 1))]) false level w rfl]
  have hv := special_not_void _ hspecial
  have hs : hasSingleTextChild (some (element a tag [] [text (aLine (n + 1))])) = true := rfl
  have hd : (element a tag [] [text (aLine (n + 1))]).Data = tag := rfl
  have hc : (element a tag [] [text (aLine (n + 1))]).children = [text (aLine (n + 1))] := rfl
  have hraw : (false || tag == "pre" || tag == "code") = false := by
    simp [hpre, hcode]
  simp only [hv, Bool.false_eq_true, if_false, hd, hraw, printChildren, hc,
    printChildrenLoop_cons, printChildrenLoop_nil, List.head?_nil, breaksOpen, hs,
    Bool.not_true, Bool.and_false, String.append_empty]
  rw [printNode_text_special I (some (element a tag [] [text (aLine (n + 1))]))
    none none (text (aLine (n + 1))) (level + 1) _ rfl hspecial]
  have hdt : (text (aLine (n + 1))).Data = aLine (n + 1) := rfl
  simp only [hdt, TrimSpace_aLine, aLine_ne_empty, if_false, scanLines_aLine n h,
    List.map_nil, concatAll, Option.isNone_some, Bool.false_eq_true, String.append_empty,
    andThen_err]

/-- The loop over siblings stops at a script element whose text is one line of at least
`bufio.MaxScanTokenSize` bytes: the siblings after it are not rendered. -/
theorem printChildrenLoop_script_too_long (I : String) (parent prev : Option Node)
    (rest : List Node) (n : Nat) (level : Nat) (w : String)
    (h : bufio.MaxScanTokenSize ≤ n + 1) :
    printChildrenLoop Q stringsBuilder I parent prev
        (element .Script "script" [] [text (aLine (n + 1))] :: rest) false level w =
      (w ++ (if indentsOpen false prev then strings.Repeat I level else "") ++ "<script>",
        some Error.ErrTooLong) := by
  rw [printChildrenLoop_cons, printNode_script_too_long I parent prev rest.head? n level w h,
    andThen_err]

/-- C2, evaluation. The `<div>` whose only child is a `<script>` element holding one line
of 65536 bytes meets the conditions of the rule: it is not void, its tag is neither `pre`
nor `code`, its one child is an element and it has no siblings. Its rendering at level 0
is not the sequence the rule gives: the scanner gives up on the line, and `printNode`
returns `bufio.ErrTooLong` after the opening tag of the child; neither `</script>` nor the
indentation, `</div>` and the line break are written. -/
theorem block_nesting_evaluation :
    isVoidElement longDiv = false ∧ longDiv.Data = "div" ∧
      longDiv.children = [longScript] ∧ longScript.Type' = NodeType.ElementNode ∧
      printNode unicode.IsPunct stringsBuilder "  " none none none longDiv false 0 "" =
        ("<div>\n  <script>", some Error.ErrTooLong) := by
  refine ⟨rfl, rfl, rfl, rfl, ?_⟩
  have hc : printChildren unicode.IsPunct stringsBuilder "  " longDiv
      (false || longDiv.Data == "pre" || longDiv.Data == "code") (0 + 1) "" =
      ("  <script>", some Error.ErrTooLong) :=
    printChildrenLoop_script_too_long "  " (some longDiv) none [] 65535 1 "" (by decide)
  rw [printNode_element_explicit "  " none none none longDiv false 0 "" rfl, hc]
  rfl

/-- C4, evaluation. In the tree of `<p><script>…</script>.</p>` the script element, which
is not void, is followed by a text node that begins with the punctuation character `.`, and
the parent is a `<p>`. The rendering of the script element outside raw mode does not end
with its closing tag, and in the output of the parent the period does not follow
`</script>`: the scanner gives up on the line of 65536 bytes, the rendering returns
`bufio.ErrTooLong` after the opening tag, and neither the closing tag nor the period is
written. -/
theorem punctuation_attachment_evaluation :
    isVoidElement longScript = false ∧ unicode.IsPunct '.' = true ∧
      isSpecialContentElement (some longParagraph) = false ∧
      longParagraph.children = [longScript, text "."] ∧
      printNode unicode.IsPunct stringsBuilder "  " (some longParagraph) none
          (some (text ".")) longScript false 1 "" =
        ("  <script>", some Error.ErrTooLong) ∧
      printNode unicode.IsPunct stringsBuilder "  " none none none longParagraph false 0 "" =
        ("<p>\n  <script>", some Error.ErrTooLong) := by
  refine ⟨rfl, by decide, rfl, rfl,
    printNode_script_too_long "  " (some longParagraph) none (some (text ".")) 65535 1 ""
      (by decide), ?_⟩
  have hc : printChildren unicode.IsPunct stringsBuilder "  " longParagraph
      (false || longParagraph.Data == "pre" || longParagraph.Data == "code") (0 + 1) "" =
      ("  <script>", some Error.ErrTooLong) :=
    printChildrenLoop_script_too_long "  " (some longParagraph) none [text "."] 65535 1 ""
      (by decide)
  rw [printNode_element_explicit "  " none none none longParagraph false 0 "" rfl, hc]
  rfl

/-- C6, evaluation. A `<style>` element is not void, yet its rendering need not contain
its closing tag: with a text of one line of 65536 bytes the scanner gives up, and
`printNode` returns `bufio.ErrTooLong` after writing the opening tag alone. -/
theorem void_elements_evaluation :
    isVoidElement longStyle = false ∧
      printNode unicode.IsPunct stringsBuilder "  " none none none longStyle false 0 "" =
        ("<style>", some Error.ErrTooLong) :=
  ⟨rfl, printNode_raw_too_long "  " none none none .Style "style" 65535 0 "" rfl (by decide)
    (by decide) (by decide)⟩

/-- C14, evaluation. The script element of `longDiv` is a non-void element without next
sibling, so that the rule has a line break right after its closing tag. Rendered outside
raw mode at level 1 with a tab as indent unit, it gets neither: the scanner gives up on the
line of 65536 bytes, and `printNode` returns `bufio.ErrTooLong` after the opening tag. -/
theorem element_trailing_break_evaluation :
    isVoidElement longScript = false ∧ breaksClose unicode.IsPunct false none = true ∧
      printNode unicode.IsPunct stringsBuilder "\t" (some longDiv) none none longScript
          false 1 "" =
        ("\t<script>", some Error.ErrTooLong) :=
  ⟨rfl, rfl,
    printNode_script_too_long "\t" (some longDiv) none none 65535 1 "" (by decide)⟩

end htmlformat
